import Mathlib

/-!
Shallow embedding of the FIDNS on-chain core: the `TLDRegistry` domain
registry (`src/contracts/TLDRegistry.sol`), the `DomainTreasury` fee ledger
(`src/unnamed/part_013`), and the `DomainFractionalization` / `DomainToken`
pair (`src/contracts/DomainFractionalization.sol`).

Solidity strings are byte arrays; we embed them as `List Nat` (one entry per
byte).  Addresses are `Nat` with `0` playing the role of `address(0)`.
Unsigned machine integers are `Nat`; the `uint64` truncating casts that the
source applies when storing timestamps are modelled with explicit `% 2^64`,
and the one place where `uint256` overflow matters for a claim (the share
purchase price multiplication, which Solidity 0.8 checked arithmetic turns
into a revert) is modelled with an explicit `2^256` bound check.  A reverting
call is `none`; EVM semantics roll back every state change of a reverted
call, so a `none` result carries no state.  External value transfers to user
accounts (refunds, ERC20 `transferFrom`) can fail for reasons outside this
model; each is represented by an explicit `Bool` parameter ("the external
call succeeded"), and a failure reverts the surrounding call.
-/

namespace FIDNS

/-- Bytes of a Solidity `string`. -/
abbrev Str := List Nat

/-- Pointwise map update (Solidity `mapping` assignment). -/
def upd {α β : Type} [DecidableEq α] (m : α → β) (k : α) (v : β) : α → β :=
  fun x => if x = k then v else m x

/-- `2^64`, the modulus of the `uint64` truncating casts used for stored timestamps. -/
def U64 : Nat := 18446744073709551616

/-- `2^256`, the modulus of `uint256`; Solidity 0.8 checked arithmetic reverts
on overflow rather than wrapping. -/
def U256 : Nat := 2 ^ 256

/-- `TLDRegistry._isAlphanumeric`: `0-9`, `A-Z` or `a-z`. -/
def isAlphanum (c : Nat) : Bool :=
  (48 ≤ c && c ≤ 57) || (65 ≤ c && c ≤ 90) || (97 ≤ c && c ≤ 122)

/-- Byte-level case fold used by `TLDRegistry._normalizeDomain`:
`A`-`Z` (0x41-0x5A) gets 32 added, every other byte is unchanged. -/
def toLowerByte (c : Nat) : Nat :=
  if 65 ≤ c && c ≤ 90 then c + 32 else c

/-- `TLDRegistry._normalizeDomain`: reverts (`none`) on the empty string and on
strings longer than 253 bytes, otherwise lowercases every byte. -/
def normalizeDomain (s : Str) : Option Str :=
  if s.length = 0 then none
  else if s.length > 253 then none
  else some (s.map toLowerByte)

/-- Helper for `_validateDomainName`: no two consecutive `-` (0x2D) bytes. -/
def noConsecHyphens : Str → Bool
  | [] => true
  | [_] => true
  | a :: b :: rest => !(a = 45 && b = 45) && noConsecHyphens (b :: rest)

/-- `TLDRegistry._validateDomainName`: length 1..63, alphanumeric first and
last byte, only alphanumerics and hyphens, no consecutive hyphens. -/
def validateDomainName (d : Str) : Bool :=
  d.length ≥ 1 && d.length ≤ 63 &&
  isAlphanum (d.headD 0) && isAlphanum (d.getLastD 0) &&
  d.all (fun c => isAlphanum c || c = 45) &&
  noConsecHyphens d

/-- One `DomainInfo` record of `TLDRegistry` (the mapping default is the
all-zero record, meaning "never registered"). -/
structure DomainRec where
  owner : Nat
  registrationTimestamp : Nat
  expirationTimestamp : Nat
  yearsPurchased : Nat
  tld : Str
deriving DecidableEq

/-- The zero record returned for unregistered domains. -/
def DomainRec.empty : DomainRec := ⟨0, 0, 0, 0, []⟩

instance : Inhabited DomainRec := ⟨DomainRec.empty⟩

/-- Storage of `TLDRegistry`.  The Chainlink feed is represented by the data
its `latestRoundData` call would return (`feedAnswer`, `feedUpdatedAt`) plus a
flag for the whole external call reverting. -/
structure RegistryState where
  domainInfo : Str → DomainRec
  tldPrices : Str → Nat
  ownerDomains : Nat → List Str
  usdcToken : Nat
  treasury : Nat
  fractionalization : Nat
  feedSet : Bool
  feedReverts : Bool
  feedAnswer : Int
  feedUpdatedAt : Nat
  fallbackETHPrice : Nat
  fallbackPriceTimestamp : Nat

/-- Storage of `DomainTreasury`. -/
structure TreasuryState where
  treasuryBalances : Str → Nat
  domainFeePercentages : Str → Nat
  defaultFeePercentage : Nat

/-- Combined registry + treasury system, the two contracts wired to each
other (the registry's `treasury` address pointing at the treasury contract). -/
structure Sys where
  reg : RegistryState
  trs : TreasuryState

/-- `MIN_ETH_PRICE`: `$500` with 8 decimals. -/
def MIN_ETH_PRICE : Nat := 500 * 10 ^ 8

/-- `MAX_FEE_PERCENTAGE`: 1000 basis points. -/
def MAX_FEE_PERCENTAGE : Nat := 1000

/-- Seconds in `365 days`. -/
def YEAR : Nat := 31536000

/-- `TLDRegistry.getDomainPrice`: reverts for years outside 1..10 and when the
per-year price of the TLD is unset (zero). -/
def getDomainPrice (r : RegistryState) (tld : Str) (numYears : Nat) : Option Nat :=
  if numYears = 0 || numYears > 10 then none
  else
    let pricePerYear := r.tldPrices tld
    if pricePerYear = 0 then none else some (pricePerYear * numYears)

/-- `TLDRegistry.isDomainAvailable` (normalizes its input, so it can revert on
empty/overlong input): available iff never registered or expired. -/
def isDomainAvailable (r : RegistryState) (now : Nat) (domain : Str) : Option Bool :=
  match normalizeDomain domain with
  | none => none
  | some nd =>
    let info := r.domainInfo nd
    if info.owner = 0 then some true else some (decide (now ≥ info.expirationTimestamp))

/-- `DomainTreasury.calculateFee`: the domain's own basis-point rate if set,
else the global default, applied to the transaction value. -/
def calculateFee (t : TreasuryState) (domain : Str) (transactionValue : Nat) : Nat :=
  let feePercentage := t.domainFeePercentages domain
  let feePercentage := if feePercentage = 0 then t.defaultFeePercentage else feePercentage
  transactionValue * feePercentage / 10000

/-- `TLDRegistry._validateFee`: fee at most the payment and at most
`MAX_FEE_PERCENTAGE` basis points of it.  Solidity divides by `payment`, so a
zero payment reverts (division by zero); that is the `payment ≠ 0` conjunct. -/
def validateFee (fee payment : Nat) : Bool :=
  fee ≤ payment && payment ≠ 0 && fee * 10000 / payment ≤ MAX_FEE_PERCENTAGE

/-- `DomainTreasury.depositFee`: only the registry may call; rejects zero
values and the empty domain. -/
def depositFee (t : TreasuryState) (callerIsRegistry : Bool) (domain : Str)
    (msgValue : Nat) : Option TreasuryState :=
  if !callerIsRegistry then none
  else if msgValue = 0 then none
  else if domain.length = 0 then none
  else some { t with treasuryBalances := upd t.treasuryBalances domain (t.treasuryBalances domain + msgValue) }

/-- `TLDRegistry._removeDomainFromOwner`: first matching entry is overwritten
with the last entry, then the last entry is popped. -/
def removeDomainFromOwner (l : List Str) (d : Str) : List Str :=
  match l.findIdx? (· = d) with
  | none => l
  | some i => (l.set i (l.getLastD [])).dropLast

/-- The owner-index and record update shared by the tail of `registerDomain`,
`registerDomainWithUSDC` and each `batchRegisterDomains` iteration: remove the
domain from a lapsed previous owner's list, add it to the caller's list, and
overwrite the `DomainInfo` record. -/
def storeDomainRecord (r : RegistryState) (sender now : Nat) (fullDomain nt : Str)
    (numYears : Nat) : RegistryState :=
  let oldInfo := r.domainInfo fullDomain
  let od :=
    if oldInfo.owner ≠ 0 && oldInfo.owner ≠ sender then
      upd r.ownerDomains oldInfo.owner (removeDomainFromOwner (r.ownerDomains oldInfo.owner) fullDomain)
    else r.ownerDomains
  let od :=
    if oldInfo.owner ≠ sender then upd od sender (od sender ++ [fullDomain]) else od
  { r with
    ownerDomains := od
    domainInfo := upd r.domainInfo fullDomain
      { owner := sender
        registrationTimestamp := now % U64
        expirationTimestamp := (now + numYears * YEAR) % U64
        yearsPurchased := numYears % 256
        tld := nt } }

/-- Fee-handling block shared verbatim by `registerDomain` and `renewDomain`:
when a treasury is configured, obtain the fee via `calculateFee`
(the `staticcall`), validate it, and when nonzero deposit it with the fee as
attached value and reduce the net payment.  Returns the updated treasury state
and the net payment. -/
def feeStepOf (s : Sys) (fullDomain : Str) (msgValue : Nat) : Option (TreasuryState × Nat) :=
  if s.reg.treasury ≠ 0 then
    let fee := calculateFee s.trs fullDomain msgValue
    if !validateFee fee msgValue then none
    else if fee > 0 then
      match depositFee s.trs true fullDomain fee with
      | none => none
      | some t1 => some (t1, msgValue - fee)
    else some (s.trs, msgValue)
  else some (s.trs, msgValue)

/-- The expiration-extension block shared by every renewal path: from `now`
when already expired, from the stored expiration otherwise, truncated to
`uint64` on store. -/
def extendExp (expirationTimestamp now numYears : Nat) : Nat :=
  if now ≥ expirationTimestamp then (now + numYears * YEAR) % U64
  else (expirationTimestamp + numYears * YEAR) % U64

/-- `TLDRegistry.registerDomain` running against the combined system.
`refundOk` is the outcome of the external refund transfer, if one happens. -/
def registerDomain (s : Sys) (sender now msgValue : Nat) (domain tld : Str)
    (numYears : Nat) (refundOk : Bool) : Option Sys :=
  if numYears = 0 || numYears > 10 then none
  else match normalizeDomain domain, normalizeDomain tld with
  | some nd, some nt =>
    if !validateDomainName nd then none
    else if !validateDomainName nt then none
    else
      let fullDomain := nd ++ [46] ++ nt
      match isDomainAvailable s.reg now fullDomain with
      | none => none
      | some avail =>
        if !avail then none
        else match getDomainPrice s.reg nt numYears with
        | none => none
        | some totalPrice =>
          if msgValue < totalPrice then none
          else
            match feeStepOf s fullDomain msgValue with
            | none => none
            | some (t1, netPayment) =>
              if netPayment < totalPrice then none
              else if netPayment - totalPrice > 0 && !refundOk then none
              else some { reg := storeDomainRecord s.reg sender now fullDomain nt numYears
                          trs := t1 }
  | _, _ => none

/-- `TLDRegistry.renewDomain` (ETH path) running against the combined system. -/
def renewDomain (s : Sys) (sender now msgValue : Nat) (domain tld : Str)
    (numYears : Nat) (refundOk : Bool) : Option Sys :=
  if numYears = 0 || numYears > 10 then none
  else match normalizeDomain domain, normalizeDomain tld with
  | some nd, some nt =>
    let fullDomain := nd ++ [46] ++ nt
    let info := s.reg.domainInfo fullDomain
    if info.owner ≠ sender then none
    else if now ≥ info.expirationTimestamp then none
    else match getDomainPrice s.reg nt numYears with
    | none => none
    | some totalPrice =>
      if msgValue < totalPrice then none
      else
        match feeStepOf s fullDomain msgValue with
        | none => none
        | some (t1, netPayment) =>
          if netPayment < totalPrice then none
          else if netPayment - totalPrice > 0 && !refundOk then none
          else if info.yearsPurchased + numYears > 100 then none
          else
            let info2 := { info with
              expirationTimestamp := extendExp info.expirationTimestamp now numYears
              yearsPurchased := (info.yearsPurchased + numYears) % 256 }
            some { reg := { s.reg with domainInfo := upd s.reg.domainInfo fullDomain info2 }
                   trs := t1 }
  | _, _ => none

/-- `TLDRegistry._tryGetOraclePrice`: reads the feed and validates answer > 0,
update time > 0 and staleness at most 3600s; a price below `MIN_ETH_PRICE`
reverts (`none`, caught by the caller's try).  A reverting feed call is
`feedReverts`. -/
def tryGetOraclePrice (r : RegistryState) (now : Nat) : Option (Nat × Nat × Bool) :=
  if r.feedReverts then none
  else if r.feedAnswer > 0 && r.feedUpdatedAt > 0 && now - r.feedUpdatedAt ≤ 3600 then
    let price := r.feedAnswer.toNat
    if price < MIN_ETH_PRICE then none else some (price, r.feedUpdatedAt, true)
  else some (0, 0, false)

/-- `TLDRegistry.getLatestETHPrice`: oracle first (errors caught), then the
manually-set fallback, else revert `PriceFeedNotSet`. -/
def getLatestETHPrice (r : RegistryState) (now : Nat) : Option (Nat × Nat) :=
  let fb : Option (Nat × Nat) :=
    if r.fallbackETHPrice > 0 then some (r.fallbackETHPrice, r.fallbackPriceTimestamp) else none
  if r.feedSet then
    match tryGetOraclePrice r now with
    | some (p, t, true) => some (p, t)
    | some (_, _, false) => fb
    | none => fb
  else fb

/-- `TLDRegistry.convertETHToUSDC`: `(ethAmount * ethPriceInUSD) / 10^20`. -/
def convertETHToUSDC (r : RegistryState) (now ethAmount : Nat) : Option Nat :=
  match getLatestETHPrice r now with
  | none => none
  | some (p, _) => some (ethAmount * p / 10 ^ 20)

/-- Fee computation of the USDC paths: `calculateFee` on the converted price,
validated; distinct from the ETH path, nothing is deposited yet. -/
def usdcFeeOf (s : Sys) (fullDomain : Str) (usdcPrice : Nat) : Option Nat :=
  if s.reg.treasury ≠ 0 then
    let fee := calculateFee s.trs fullDomain usdcPrice
    if !validateFee fee usdcPrice then none else some fee
  else some 0

/-- Fee transfer + deposit of the USDC paths: transfer the fee in USDC to the
treasury, then `treasury.call` of `depositFee` WITHOUT attached value (the
source attaches none), which makes `depositFee`'s `msg.value > 0` check fail. -/
def usdcDepositStep (s : Sys) (fullDomain : Str) (fee : Nat) (feeTransferOk : Bool) :
    Option TreasuryState :=
  if fee > 0 then
    if !feeTransferOk then none
    else depositFee s.trs true fullDomain 0
  else some s.trs

/-- `TLDRegistry.renewDomainWithUSDC`.  `feeTransferOk` / `netTransferOk` are
the outcomes of the two external `usdc.transferFrom` calls. -/
def renewDomainWithUSDC (s : Sys) (sender now : Nat) (domain tld : Str)
    (numYears usdcAmount : Nat) (feeTransferOk netTransferOk : Bool) : Option Sys :=
  if s.reg.usdcToken = 0 then none
  else if numYears = 0 || numYears > 10 then none
  else match normalizeDomain domain, normalizeDomain tld with
  | some nd, some nt =>
    let fullDomain := nd ++ [46] ++ nt
    let info := s.reg.domainInfo fullDomain
    if info.owner ≠ sender then none
    else if now ≥ info.expirationTimestamp then none
    else match getDomainPrice s.reg nt numYears with
    | none => none
    | some totalPrice =>
      match convertETHToUSDC s.reg now totalPrice with
      | none => none
      | some usdcPrice =>
        match usdcFeeOf s fullDomain usdcPrice with
        | none => none
        | some fee =>
          let netPrice := if fee > 0 then usdcPrice - fee else usdcPrice
          if usdcAmount < usdcPrice then none
          else
            match usdcDepositStep s fullDomain fee feeTransferOk with
            | none => none
            | some t1 =>
              let _ := netPrice
              if !netTransferOk then none
              else if info.yearsPurchased + numYears > 100 then none
              else
                let info2 := { info with
                  expirationTimestamp := extendExp info.expirationTimestamp now numYears
                  yearsPurchased := (info.yearsPurchased + numYears) % 256 }
                some { reg := { s.reg with domainInfo := upd s.reg.domainInfo fullDomain info2 }
                       trs := t1 }
  | _, _ => none

/-- `TLDRegistry.renewDomainFromTreasury`: restricted to the configured
treasury.  The function is NOT `payable`, so any attached value reverts the
call before the body runs; `msgValue` models the attached value. -/
def renewDomainFromTreasury (r : RegistryState) (callerIsTreasury : Bool)
    (msgValue now : Nat) (domain tld : Str) (numYears : Nat) : Option RegistryState :=
  if msgValue ≠ 0 then none
  else if r.treasury = 0 then none
  else if !callerIsTreasury then none
  else match normalizeDomain domain, normalizeDomain tld with
  | some nd, some nt =>
    let fullDomain := nd ++ [46] ++ nt
    let info := r.domainInfo fullDomain
    if info.owner = 0 then none
    else if info.yearsPurchased + numYears > 100 then none
    else
      let info2 := { info with
        expirationTimestamp := extendExp info.expirationTimestamp now numYears
        yearsPurchased := (info.yearsPurchased + numYears) % 256 }
      some { r with domainInfo := upd r.domainInfo fullDomain info2 }
  | _, _ => none

/-- `TLDRegistry.transferDomain`: owner-initiated transfer of an unexpired
domain to a different nonzero address. -/
def transferDomain (r : RegistryState) (sender now : Nat) (domain : Str)
    (newOwner : Nat) : Option RegistryState :=
  match normalizeDomain domain with
  | none => none
  | some nd =>
    let info := r.domainInfo nd
    if info.owner ≠ sender then none
    else if newOwner = 0 then none
    else if newOwner = sender then none
    else if now ≥ info.expirationTimestamp then none
    else
      let od := upd r.ownerDomains info.owner (removeDomainFromOwner (r.ownerDomains info.owner) nd)
      let od := upd od newOwner (od newOwner ++ [nd])
      some { r with
        domainInfo := upd r.domainInfo nd { info with owner := newOwner }
        ownerDomains := od }

/-- `TLDRegistry.transferDomainOwnership`: callable only by the configured
fractionalization contract; bypasses the owner and expiry checks. -/
def transferDomainOwnership (r : RegistryState) (callerIsFrac : Bool)
    (domain : Str) (newOwner : Nat) : Option RegistryState :=
  if r.fractionalization = 0 || !callerIsFrac then none
  else match normalizeDomain domain with
  | none => none
  | some nd =>
    let info := r.domainInfo nd
    if info.owner = 0 then none
    else if newOwner = 0 then none
    else
      let od := upd r.ownerDomains info.owner (removeDomainFromOwner (r.ownerDomains info.owner) nd)
      let od := upd od newOwner (od newOwner ++ [nd])
      some { r with
        domainInfo := upd r.domainInfo nd { info with owner := newOwner }
        ownerDomains := od }

/-- `DomainTreasury.canAutoRenew`: note the full domain key is the RAW
concatenation `domain ++ "." ++ tld` (no normalization), and the price lookup
uses the raw `tld`.  The external `getDomainPrice` call reverts when the price
is unset. -/
def canAutoRenew (s : Sys) (domain tld : Str) (numYears : Nat) : Option Bool :=
  let fullDomain := domain ++ [46] ++ tld
  match getDomainPrice s.reg tld numYears with
  | none => none
  | some renewalCost => some (decide (s.trs.treasuryBalances fullDomain ≥ renewalCost))

/-- `DomainTreasury.autoRenewDomain`: validates owner and balance against RAW
(unnormalized) keys, deducts the renewal cost, then calls the registry's
`renewDomainFromTreasury` with `renewalCost` attached as value (the source's
`{value: renewalCost}`).  A failure of that call restores the deduction and
reverts the whole transaction. -/
def autoRenewDomain (s : Sys) (sender now : Nat) (domain tld : Str)
    (numYears : Nat) : Option Sys :=
  let fullDomain := domain ++ [46] ++ tld
  let info := s.reg.domainInfo fullDomain
  if info.owner = 0 then none
  else if info.owner ≠ sender then none
  else if numYears = 0 || numYears > 10 then none
  else match getDomainPrice s.reg tld numYears with
  | none => none
  | some renewalCost =>
    if renewalCost = 0 then none
    else if s.trs.treasuryBalances fullDomain < renewalCost then none
    else
      let deducted := upd s.trs.treasuryBalances fullDomain (s.trs.treasuryBalances fullDomain - renewalCost)
      let t1 := { s.trs with treasuryBalances := deducted }
      match renewDomainFromTreasury s.reg true renewalCost now domain tld numYears with
      | some r1 => some { reg := r1, trs := t1 }
      | none => none

/-- A batch item: domain, tld, years (one index of the three parallel arrays). -/
abbrev BatchItem := Str × Str × Nat

/-- The normalized full-domain key of a batch item. -/
def itemKey (it : BatchItem) : Option Str :=
  match normalizeDomain it.1, normalizeDomain it.2.1 with
  | some nd, some nt => some (nd ++ [46] ++ nt)
  | _, _ => none

/-- One iteration of `batchRegisterDomains`'s first (validation) loop:
normalize, validate both formats, availability, price.  Returns the item's
price. -/
def regItemPrice (s : Sys) (now : Nat) (it : BatchItem) : Option Nat :=
  match normalizeDomain it.1, normalizeDomain it.2.1 with
  | some nd, some nt =>
    if !validateDomainName nd then none
    else if !validateDomainName nt then none
    else
      let fullDomain := nd ++ [46] ++ nt
      match isDomainAvailable s.reg now fullDomain with
      | none => none
      | some avail =>
        if !avail then none
        else getDomainPrice s.reg nt it.2.2
  | _, _ => none

/-- `batchRegisterDomains`'s first loop: validate every item against the
initial state and accumulate the total cost. -/
def regTotalCost (s : Sys) (now : Nat) : List BatchItem → Option Nat
  | [] => some 0
  | it :: rest =>
    match regItemPrice s now it with
    | none => none
    | some p =>
      match regTotalCost s now rest with
      | none => none
      | some q => some (p + q)

/-- One item's fee as computed in the fee loop of both batch functions
(`calculateFee(fullDomain, price)`; the tolerant `staticcall` contributes 0
when the item's price cannot be computed). -/
def itemFee (s : Sys) (it : BatchItem) : Nat :=
  match normalizeDomain it.1, normalizeDomain it.2.1 with
  | some nd, some nt =>
    match getDomainPrice s.reg nt it.2.2 with
    | some price => calculateFee s.trs (nd ++ [46] ++ nt) price
    | none => 0
  | _, _ => 0

/-- The fee-accumulation loop shared by the two batch functions. -/
def totalFeesOf (s : Sys) (items : List BatchItem) : Nat :=
  if s.reg.treasury ≠ 0 then (items.map (itemFee s)).sum else 0

/-- Per-item fee deposit of the two batch loops: compute the fee on the
item's price (the tolerant `staticcall`) and deposit it when nonzero. -/
def batchDepositFee (s : Sys) (fullDomain : Str) (price : Nat) : Option TreasuryState :=
  if s.reg.treasury ≠ 0 then
    let fee := calculateFee s.trs fullDomain price
    if fee > 0 then depositFee s.trs true fullDomain fee else some s.trs
  else some s.trs

/-- One iteration of `batchRegisterDomains`'s registration loop: recompute the
key and price, deposit this item's fee when a treasury is configured, store
the record and update the owner index. -/
def regApply1 (s : Sys) (sender now : Nat) (it : BatchItem) : Option Sys :=
  match normalizeDomain it.1, normalizeDomain it.2.1 with
  | some nd, some nt =>
    let fullDomain := nd ++ [46] ++ nt
    match getDomainPrice s.reg nt it.2.2 with
    | none => none
    | some price =>
      match batchDepositFee s fullDomain price with
      | none => none
      | some t1 => some { reg := storeDomainRecord s.reg sender now fullDomain nt it.2.2, trs := t1 }
  | _, _ => none

/-- `batchRegisterDomains`'s registration loop over all items. -/
def regApplyAll (s : Sys) (sender now : Nat) : List BatchItem → Option Sys
  | [] => some s
  | it :: rest =>
    match regApply1 s sender now it with
    | none => none
    | some s1 => regApplyAll s1 sender now rest

/-- `TLDRegistry.batchRegisterDomains`: array lengths must match, batch size
1..10, all items validated against the entry state, one aggregated payment
check, per-item fee deposits, one aggregated refund. -/
def batchRegisterDomains (s : Sys) (sender now msgValue : Nat)
    (domains tlds : List Str) (numYearsArray : List Nat) (refundOk : Bool) : Option Sys :=
  if domains.length ≠ tlds.length || domains.length ≠ numYearsArray.length then none
  else if domains.length = 0 || domains.length > 10 then none
  else
    let items : List BatchItem := domains.zip (tlds.zip numYearsArray)
    match regTotalCost s now items with
    | none => none
    | some totalCost =>
      let totalFees := totalFeesOf s items
      if msgValue < totalCost + totalFees then none
      else match regApplyAll s sender now items with
      | none => none
      | some s2 =>
        if msgValue > totalCost + totalFees && !refundOk then none
        else some s2

/-- One iteration of `batchRenewDomains`'s first (validation) loop: caller
must own the (normalized) domain and it must not be expired; returns the
item's price. -/
def renItemPrice (s : Sys) (sender now : Nat) (it : BatchItem) : Option Nat :=
  match normalizeDomain it.1, normalizeDomain it.2.1 with
  | some nd, some nt =>
    let fullDomain := nd ++ [46] ++ nt
    let info := s.reg.domainInfo fullDomain
    if info.owner ≠ sender then none
    else if now ≥ info.expirationTimestamp then none
    else getDomainPrice s.reg nt it.2.2
  | _, _ => none

/-- `batchRenewDomains`'s first loop: validate every item against the entry
state and accumulate the total cost. -/
def renTotalCost (s : Sys) (sender now : Nat) : List BatchItem → Option Nat
  | [] => some 0
  | it :: rest =>
    match renItemPrice s sender now it with
    | none => none
    | some p =>
      match renTotalCost s sender now rest with
      | none => none
      | some q => some (p + q)

/-- One iteration of `batchRenewDomains`'s renewal loop: deposit this item's
fee, then extend the (current) record's expiration and bump the years counter
with the 100-year cap. -/
def renApply1 (s : Sys) (now : Nat) (it : BatchItem) : Option Sys :=
  match normalizeDomain it.1, normalizeDomain it.2.1 with
  | some nd, some nt =>
    let fullDomain := nd ++ [46] ++ nt
    match getDomainPrice s.reg nt it.2.2 with
    | none => none
    | some price =>
      match batchDepositFee s fullDomain price with
      | none => none
      | some t1 =>
        let info := s.reg.domainInfo fullDomain
        if info.yearsPurchased + it.2.2 > 100 then none
        else
          let info2 := { info with
            expirationTimestamp := extendExp info.expirationTimestamp now it.2.2
            yearsPurchased := (info.yearsPurchased + it.2.2) % 256 }
          some { reg := { s.reg with domainInfo := upd s.reg.domainInfo fullDomain info2 }, trs := t1 }
  | _, _ => none

/-- `batchRenewDomains`'s renewal loop over all items. -/
def renApplyAll (s : Sys) (now : Nat) : List BatchItem → Option Sys
  | [] => some s
  | it :: rest =>
    match renApply1 s now it with
    | none => none
    | some s1 => renApplyAll s1 now rest

/-- `TLDRegistry.batchRenewDomains`: array lengths must match, batch size
1..10, all items validated against the entry state, one aggregated payment
check, per-item fee deposits, one aggregated refund. -/
def batchRenewDomains (s : Sys) (sender now msgValue : Nat)
    (domains tlds : List Str) (numYearsArray : List Nat) (refundOk : Bool) : Option Sys :=
  if domains.length ≠ tlds.length || domains.length ≠ numYearsArray.length then none
  else if domains.length = 0 || domains.length > 10 then none
  else
    let items : List BatchItem := domains.zip (tlds.zip numYearsArray)
    match renTotalCost s sender now items with
    | none => none
    | some totalCost =>
      let totalFees := totalFeesOf s items
      if msgValue < totalCost + totalFees then none
      else match renApplyAll s now items with
      | none => none
      | some s2 =>
        if msgValue > totalCost + totalFees && !refundOk then none
        else some s2

/-- `DomainFractionalization.TOTAL_SUPPLY`: 10 billion tokens with 18 decimals. -/
def TOTAL_SUPPLY : Nat := 10000000000 * 10 ^ 18

/-- `DomainFractionalization.OWNER_SHARE`: 5 billion tokens with 18 decimals. -/
def OWNER_SHARE : Nat := 5000000000 * 10 ^ 18

/-- `DomainFractionalization.PUBLIC_SHARE`: 5 billion tokens with 18 decimals. -/
def PUBLIC_SHARE : Nat := 5000000000 * 10 ^ 18

/-- `DomainFractionalization.MAX_TOKEN_HOLDERS`. -/
def MAX_TOKEN_HOLDERS : Nat := 1000

/-- One `FractionalizationInfo` record (mapping default all-zero / false). -/
structure FracInfo where
  tokenContract : Nat
  domainOwner : Nat
  unlockTimestamp : Nat
  isEnabled : Bool
  publicTokenPrice : Nat
deriving DecidableEq

/-- The zero record for not-yet-fractionalized domains. -/
def FracInfo.empty : FracInfo := ⟨0, 0, 0, false, 0⟩

/-- Storage of one deployed `DomainToken` ERC20 contract. -/
structure TokenState where
  balances : Nat → Nat
  totalSupply : Nat
  owner : Nat
  lockedSupply : Nat
  unlockTimestamp : Nat
  ownerTokensUnlocked : Bool
  domainName : Str

/-- Storage of `DomainFractionalization`.  `tokens` maps a deployed token
contract address to its state; `nextTokenAddr` makes deployed addresses fresh
and nonzero.  `soldPublic` is a ghost counter (no contract storage): the
cumulative share units ever minted through `purchasePublicTokens`. -/
structure FracState where
  domainTokens : Str → Nat
  fracInfo : Str → FracInfo
  tokenHolders : Str → List Nat
  holderBalances : Str → Nat → Nat
  gracePeriod : Nat
  tokens : Nat → TokenState
  nextTokenAddr : Nat
  soldPublic : Str → Nat

/-- The fractionalization contract (at address `fracAddr`) wired to the
registry. -/
structure FracSys where
  frac : FracState
  reg : RegistryState
  fracAddr : Nat

/-- Swap-and-pop removal of the first occurrence of a holder address
(`onTokenTransfer`'s removal loop). -/
def removeHolder (l : List Nat) (a : Nat) : List Nat :=
  match l.findIdx? (· = a) with
  | none => l
  | some i => (l.set i (l.getLastD 0)).dropLast

/-- `DomainFractionalization.onTokenTransfer`: callable only by the domain's
registered token contract while fractionalization is enabled; maintains
`holderBalances` and the `tokenHolders` list on every mint / burn / move. -/
def onTokenTransfer (f : FracState) (msgSender : Nat) (domain : Str)
    (fromA toA amount : Nat) : Option FracState :=
  let expectedToken := f.domainTokens domain
  if expectedToken = 0 then none
  else if msgSender ≠ expectedToken then none
  else if !(f.fracInfo domain).isEnabled then none
  else
    let domOwner := (f.fracInfo domain).domainOwner
    let fromStep : Option (FracState) :=
      if fromA ≠ 0 then
        if f.holderBalances domain fromA < amount then none
        else
          let hb1 := upd f.holderBalances domain
            (upd (f.holderBalances domain) fromA (f.holderBalances domain fromA - amount))
          let th1 :=
            if hb1 domain fromA = 0 && fromA ≠ domOwner then
              upd f.tokenHolders domain (removeHolder (f.tokenHolders domain) fromA)
            else f.tokenHolders
          some { f with holderBalances := hb1, tokenHolders := th1 }
      else some f
    match fromStep with
    | none => none
    | some f1 =>
      if toA ≠ 0 then
        let th2 :=
          if f1.holderBalances domain toA = 0 && toA ≠ domOwner then
            upd f1.tokenHolders domain (f1.tokenHolders domain ++ [toA])
          else f1.tokenHolders
        let hb2 := upd f1.holderBalances domain
          (upd (f1.holderBalances domain) toA (f1.holderBalances domain toA + amount))
        some { f1 with holderBalances := hb2, tokenHolders := th2 }
      else some f1

/-- `DomainToken._update`: the locked-owner-balance check, then the
`onTokenTransfer` notification, then OpenZeppelin's `ERC20._update` (mint /
burn / move with a checked sender balance). -/
def tokenUpdate (s : FracSys) (tokenAddr fromA toA value now : Nat) : Option FracSys :=
  let tk := s.frac.tokens tokenAddr
  let lockCheckOk : Bool :=
    if fromA = tk.owner && !tk.ownerTokensUnlocked && decide (now < tk.unlockTimestamp) then
      decide (value ≤ tk.balances fromA) && decide (tk.balances fromA - value ≥ tk.lockedSupply)
    else true
  if !lockCheckOk then none
  else match onTokenTransfer s.frac tokenAddr tk.domainName fromA toA value with
  | none => none
  | some f1 =>
    let fromStep : Option ((Nat → Nat) × Nat) :=
      if fromA = 0 then some (tk.balances, tk.totalSupply + value)
      else if tk.balances fromA < value then none
      else some (upd tk.balances fromA (tk.balances fromA - value), tk.totalSupply)
    match fromStep with
    | none => none
    | some (bal1, sup1) =>
      let balSup :=
        if toA = 0 then (bal1, sup1 - value)
        else (upd bal1 toA (bal1 toA + value), sup1)
      let tk2 := { tk with balances := balSup.1, totalSupply := balSup.2 }
      some { s with frac := { f1 with tokens := upd f1.tokens tokenAddr tk2 } }

/-- `DomainFractionalization.enableFractionalization`: verify ownership
against the registry, not already enabled, positive price, not expired; then
deploy a fresh `DomainToken`, mint the owner's locked half (which runs
`DomainToken._update` and hence the `onTokenTransfer` callback), and record
the `FractionalizationInfo` and token address. -/
def enableFractionalization (s : FracSys) (sender now : Nat) (domain : Str)
    (publicTokenPrice : Nat) : Option FracSys :=
  let info := s.reg.domainInfo domain
  if info.owner ≠ sender then none
  else if (s.frac.fracInfo domain).isEnabled then none
  else if publicTokenPrice = 0 then none
  else if info.expirationTimestamp ≤ now then none
  else
    let a := s.frac.nextTokenAddr + 1
    let tk : TokenState :=
      { balances := fun _ => 0, totalSupply := 0, owner := sender, lockedSupply := 0
        unlockTimestamp := 0, ownerTokensUnlocked := false, domainName := domain }
    let s0 : FracSys := { s with frac := { s.frac with tokens := upd s.frac.tokens a tk, nextTokenAddr := a } }
    match tokenUpdate s0 a 0 sender OWNER_SHARE now with
    | none => none
    | some s1 =>
      let tk1 := s1.frac.tokens a
      let tk2 := { tk1 with lockedSupply := OWNER_SHARE, unlockTimestamp := info.expirationTimestamp }
      let fi : FracInfo :=
        { tokenContract := a, domainOwner := sender, unlockTimestamp := info.expirationTimestamp
          isEnabled := true, publicTokenPrice := publicTokenPrice }
      some { s1 with frac := { s1.frac with
        tokens := upd s1.frac.tokens a tk2
        fracInfo := upd s1.frac.fracInfo domain fi
        domainTokens := upd s1.frac.domainTokens domain a } }

/-- `DomainToken.publicSupply`: with the owner's tokens still locked,
`totalSupply() - lockedSupply`; once unlocked, `totalSupply() - balanceOf(owner)`.
Checked subtraction: an underflow reverts. -/
def publicSupply (tk : TokenState) : Option Nat :=
  let total := tk.totalSupply
  let ownerBalance := tk.balances tk.owner
  let locked := if tk.ownerTokensUnlocked then 0 else tk.lockedSupply
  if tk.ownerTokensUnlocked then
    if ownerBalance > total then none else some (total - ownerBalance)
  else
    if locked > total then none else some (total - locked)

/-- The purchase-side holder tracking of `purchasePublicTokens`: a buyer with
a zero recorded balance who is not the domain owner is appended to the holder
list, subject to the `MAX_TOKEN_HOLDERS` cap. -/
def purchaseHolderTrack (f1 : FracState) (domain : Str) (sender domOwner : Nat) :
    Option FracState :=
  if f1.holderBalances domain sender = 0 && sender ≠ domOwner then
    if (f1.tokenHolders domain).length ≥ MAX_TOKEN_HOLDERS then none
    else some { f1 with tokenHolders := upd f1.tokenHolders domain (f1.tokenHolders domain ++ [sender]) }
  else some f1

/-- `DomainFractionalization.purchasePublicTokens`: requires an enabled
domain, a positive amount within `publicSupply()`, and payment of
`(price * amount + 10^18 - 1) / 10^18` (checked `uint256` arithmetic: an
overflowing product reverts); mints to the buyer (running the
`onTokenTransfer` callback), then updates the purchase-side holder tracking,
then refunds the excess.  Returns the new state, the charged amount and the
refunded amount. -/
def purchasePublicTokens (s : FracSys) (sender now msgValue : Nat) (domain : Str)
    (numTokens : Nat) (refundOk : Bool) : Option (FracSys × Nat × Nat) :=
  let info := s.frac.fracInfo domain
  if !info.isEnabled then none
  else if numTokens = 0 then none
  else match publicSupply (s.frac.tokens info.tokenContract) with
  | none => none
  | some availableSupply =>
    if numTokens > availableSupply then none
    else if info.publicTokenPrice * numTokens ≥ U256 then none
    else if info.publicTokenPrice * numTokens + 10 ^ 18 - 1 ≥ U256 then none
    else
      let totalPrice := (info.publicTokenPrice * numTokens + 10 ^ 18 - 1) / 10 ^ 18
      if msgValue < totalPrice then none
      else match tokenUpdate s info.tokenContract 0 sender numTokens now with
      | none => none
      | some s1 =>
        match purchaseHolderTrack s1.frac domain sender info.domainOwner with
        | none => none
        | some f2 =>
          let hb2 := upd f2.holderBalances domain
            (upd (f2.holderBalances domain) sender (f2.holderBalances domain sender + numTokens))
          let f3 := { f2 with holderBalances := hb2,
                              soldPublic := upd f2.soldPublic domain (f2.soldPublic domain + numTokens) }
          if msgValue > totalPrice && !refundOk then none
          else some ({ s1 with frac := f3 }, totalPrice, msgValue - totalPrice)

/-- The bounded holder scan inside `getMajorityOwner` (the `gasleft()`
early-exit is not modelled: it can only force the zero result, which blocks a
transfer, never enables one). -/
def scanHolders (tk : TokenState) (domOwner threshold : Nat) : List Nat → Nat
  | [] => 0
  | h :: rest =>
    if h = domOwner then scanHolders tk domOwner threshold rest
    else if tk.balances h ≥ threshold then h
    else scanHolders tk domOwner threshold rest

/-- `DomainFractionalization.getMajorityOwner`: the recorded owner first, then
the first 100 tracked holders, looking for a balance of at least
`totalSupply/2 + 1`. -/
def getMajorityOwner (s : FracSys) (domain : Str) : Nat :=
  let info := s.frac.fracInfo domain
  if !info.isEnabled then 0
  else
    let tk := s.frac.tokens info.tokenContract
    if tk.totalSupply = 0 then 0
    else
      let threshold := tk.totalSupply / 2 + 1
      if tk.balances info.domainOwner ≥ threshold then info.domainOwner
      else scanHolders tk info.domainOwner threshold ((s.frac.tokenHolders domain).take 100)

/-- `DomainFractionalization.burnAndTransfer` (the default-transfer trigger):
requires an enabled domain, expired for at least the grace period, and a
majority holder different from the recorded owner; burns the recorded owner's
tokens and asks the registry to reassign ownership. -/
def burnAndTransfer (s : FracSys) (now : Nat) (domain : Str) : Option FracSys :=
  let info := s.frac.fracInfo domain
  if !info.isEnabled then none
  else
    let rinfo := s.reg.domainInfo domain
    if now < rinfo.expirationTimestamp then none
    else if now < rinfo.expirationTimestamp + s.frac.gracePeriod then none
    else
      let majorityOwner := getMajorityOwner s domain
      if majorityOwner = 0 then none
      else if majorityOwner = info.domainOwner then none
      else
        let ownerBalance := (s.frac.tokens info.tokenContract).balances info.domainOwner
        let burnStep : Option FracSys :=
          if ownerBalance > 0 then
            match tokenUpdate s info.tokenContract info.domainOwner 0 ownerBalance now with
            | none => none
            | some s1 => some { s1 with frac := { s1.frac with
                holderBalances := upd s1.frac.holderBalances domain
                  (upd (s1.frac.holderBalances domain) info.domainOwner 0) } }
          else some s
        match burnStep with
        | none => none
        | some s2 =>
          match transferDomainOwnership s2.reg (decide (s2.fracAddr = s2.reg.fractionalization)) domain majorityOwner with
          | none => none
          | some r1 =>
            let fi := s2.frac.fracInfo domain
            let f2 := { s2.frac with fracInfo := upd s2.frac.fracInfo domain { fi with domainOwner := majorityOwner } }
            some { s2 with reg := r1, frac := f2 }

/-! ## Helper lemmas -/

/-- Reading a map at the updated key. -/
theorem upd_self {α β : Type} [DecidableEq α] (m : α → β) (k : α) (v : β) :
    upd m k v k = v := by
  simp [upd]

/-- Reading a map away from the updated key. -/
theorem upd_other {α β : Type} [DecidableEq α] (m : α → β) (k : α) (v : β)
    (x : α) (h : x ≠ k) : upd m k v x = m x := by
  simp [upd, h]

/-- `renewDomainFromTreasury` is not payable: any nonzero attached value
reverts. -/
theorem renewDomainFromTreasury_value_reverts (r : RegistryState) (c : Bool)
    (v now : Nat) (domain tld : Str) (numYears : Nat) (hv : v ≠ 0) :
    renewDomainFromTreasury r c v now domain tld numYears = none := by
  unfold renewDomainFromTreasury
  simp [hv]

/-- `autoRenewDomain` always reverts: the renewal cost it forwards as attached
value is positive, and the registry's `renewDomainFromTreasury` is not
payable, so the inner call always lands in the `catch` and the whole
transaction reverts. -/
theorem autoRenewDomain_always_none (s : Sys) (sender now : Nat)
    (domain tld : Str) (numYears : Nat) :
    autoRenewDomain s sender now domain tld numYears = none := by
  unfold autoRenewDomain
  cases hgp : getDomainPrice s.reg tld numYears with
  | none => simp [hgp]
  | some c =>
    by_cases hc : c = 0
    · simp [hgp, hc]
    · simp [hgp, hc, renewDomainFromTreasury_value_reverts s.reg true c now domain tld numYears hc]

/-- The `onTokenTransfer` callback reverts while the domain's
fractionalization record is not (yet) enabled. -/
theorem onTokenTransfer_none_of_not_enabled (f : FracState) (msgSender : Nat)
    (domain : Str) (fromA toA amount : Nat)
    (h : (f.fracInfo domain).isEnabled = false) :
    onTokenTransfer f msgSender domain fromA toA amount = none := by
  unfold onTokenTransfer
  simp [h]

/-- `DomainToken._update` reverts whenever its `onTokenTransfer` notification
reverts. -/
theorem tokenUpdate_none_of_hook (s : FracSys) (tokenAddr fromA toA value now : Nat)
    (h : onTokenTransfer s.frac tokenAddr (s.frac.tokens tokenAddr).domainName
          fromA toA value = none) :
    tokenUpdate s tokenAddr fromA toA value now = none := by
  unfold tokenUpdate
  simp [h]

/-! ## Claims -/

/-- Claim C1.  The claim states that `enableFractionalization` succeeds for a
current, unexpired owner with a positive price on a not-yet-fractionalized
domain.  It is refuted: `enableFractionalization` reverts on EVERY input.  The
locked mint runs `DomainToken._update`, whose `onTokenTransfer` callback
requires `fractionalizationInfo[domain].isEnabled` (and a registered
`domainTokens[domain]`), but `enableFractionalization` stores both only after
the mint, and its own `require(!isEnabled)` guarantees the flag is still false
at mint time; so the mint always reverts. -/
theorem claim_c1_enable_always_reverts (s : FracSys) (sender now : Nat)
    (domain : Str) (publicTokenPrice : Nat) :
    enableFractionalization s sender now domain publicTokenPrice = none := by
  unfold enableFractionalization
  by_cases h1 : (s.reg.domainInfo domain).owner = sender
  case neg => simp [h1]
  by_cases h2 : (s.frac.fracInfo domain).isEnabled
  case pos => simp [h1, h2]
  by_cases h3 : publicTokenPrice = 0
  case pos => simp [h1, h2, h3]
  by_cases h4 : (s.reg.domainInfo domain).expirationTimestamp ≤ now
  case pos => simp [h1, h2, h3, h4]
  simp only [h1, h2, h3, h4, ne_eq, not_true_eq_false, Bool.false_eq_true, if_false, ite_false,
    if_true, ite_true, not_false_eq_true, if_neg, decide_eq_true_eq]
  rw [tokenUpdate_none_of_hook]
  simp only [upd_self]
  exact onTokenTransfer_none_of_not_enabled _ _ _ _ _ _ (by simpa using h2)

/-- A registry with `a.io` owned by address 2 until time 10^9, the `io` price
set to 5 wei/year and a treasury contract configured at address 9. -/
def c2Reg : RegistryState :=
  { domainInfo := fun k => if k = [97, 46, 105, 111] then ⟨2, 0, 1000000000, 1, [105, 111]⟩ else DomainRec.empty
    tldPrices := fun k => if k = [105, 111] then 5 else 0
    ownerDomains := fun _ => []
    usdcToken := 0, treasury := 9, fractionalization := 0
    feedSet := false, feedReverts := false, feedAnswer := 0, feedUpdatedAt := 0
    fallbackETHPrice := 0, fallbackPriceTimestamp := 0 }

/-- A treasury holding 100 wei of accumulated fees for `a.io`. -/
def c2Trs : TreasuryState :=
  { treasuryBalances := fun k => if k = [97, 46, 105, 111] then 100 else 0
    domainFeePercentages := fun _ => 0
    defaultFeePercentage := 100 }

/-- Claim C2.  The claim states that `autoRenewDomain` succeeds for the owner
with years in 1..10, a set TLD price and a sufficient treasury balance.  It is
refuted: `autoRenewDomain` reverts on EVERY input, because it attaches
`renewalCost` (always positive) as call value to the registry's
`renewDomainFromTreasury`, which is not `payable`; the inner call therefore
always fails and the function reverts with "Renewal failed".  The second
conjunct evaluates the code on a concrete input satisfying every precondition
of the claim (owner calls, 1 year, price 5 set, balance 100 ≥ cost 5). -/
theorem claim_c2_auto_renew_always_reverts :
    (∀ (s : Sys) (sender now : Nat) (domain tld : Str) (numYears : Nat),
      autoRenewDomain s sender now domain tld numYears = none) ∧
    (autoRenewDomain ⟨c2Reg, c2Trs⟩ 2 10 [97] [105, 111] 1 = none ∧
      (c2Reg.domainInfo [97, 46, 105, 111]).owner = 2 ∧
      (10 : Nat) < (c2Reg.domainInfo [97, 46, 105, 111]).expirationTimestamp ∧
      c2Reg.tldPrices [105, 111] = 5 ∧
      c2Trs.treasuryBalances [97, 46, 105, 111] = 100) := by
  refine ⟨autoRenewDomain_always_none, autoRenewDomain_always_none _ _ _ _ _ _, ?_, ?_, ?_, ?_⟩ <;> decide

/-- A minimal registry used as the environment of the fractionalization
scenarios: `io` priced at 5 wei/year, nothing registered, no treasury. -/
def baseReg : RegistryState :=
  { domainInfo := fun _ => DomainRec.empty
    tldPrices := fun k => if k = [105, 111] then 5 else 0
    ownerDomains := fun _ => []
    usdcToken := 0, treasury := 0, fractionalization := 0
    feedSet := false, feedReverts := false, feedAnswer := 0, feedUpdatedAt := 0
    fallbackETHPrice := 0, fallbackPriceTimestamp := 0 }

/-- The domain `a` used by the fractionalization scenarios. -/
def c3Dom : Str := [97]

/-- A fractionalization state for domain `a` with an unlocked share token at
address 7: total supply 5, recorded owner (address 2) holds 4, holder 3 holds
1, and the recorded holder balances agree with the token balances, so
share-supply conservation holds before the purchase. -/
def c3Frac : FracState :=
  { domainTokens := fun k => if k = c3Dom then 7 else 0
    fracInfo := fun k => if k = c3Dom then ⟨7, 2, 0, true, 3⟩ else FracInfo.empty
    tokenHolders := fun k => if k = c3Dom then [3] else []
    holderBalances := fun k a => if k = c3Dom then (if a = 2 then 4 else if a = 3 then 1 else 0) else 0
    gracePeriod := 10
    tokens := fun x =>
      if x = 7 then ⟨fun a => if a = 2 then 4 else if a = 3 then 1 else 0, 5, 2, 0, 0, true, c3Dom⟩
      else ⟨fun _ => 0, 0, 0, 0, 0, false, []⟩
    nextTokenAddr := 7, soldPublic := fun _ => 0 }

/-- The combined system for the C3 scenario. -/
def c3Sys : FracSys := ⟨c3Frac, baseReg, 11⟩

/-- Address 9 buys 1 share unit of `a` for 10 wei at time 50. -/
def c3After : Option (FracSys × Nat × Nat) := purchasePublicTokens c3Sys 9 50 10 c3Dom 1 true

/-- Sum of recorded holder balances over a support list. -/
def sumOver (hb : Nat → Nat) (l : List Nat) : Nat := (l.map hb).sum

/-- Claim C3.  The claim states that after every fractionalization operation
the recorded holder balances sum to total minted minus total burned (i.e. to
the token's `totalSupply()`).  It is refuted: `purchasePublicTokens` credits
`holderBalances` twice per purchase — once inside the `onTokenTransfer`
callback triggered by the mint, and once directly after the mint.  Starting
from a state where conservation holds (sum 5 = supply 5, first conjunct), a
successful purchase of 1 unit leaves recorded balances summing to 7 against a
total supply of 6; the buyer's actual token balance is 1 but the recorded
balance is 2.  (All addresses outside the support `[2, 3, 9]` hold zero both
before and after: the purchase only touches the buyer, address 9.) -/
theorem claim_c3_conservation_broken :
    sumOver (c3Sys.frac.holderBalances c3Dom) [2, 3, 9] = (c3Sys.frac.tokens 7).totalSupply ∧
    (c3After.map fun r => sumOver (r.1.frac.holderBalances c3Dom) [2, 3, 9]) = some 7 ∧
    (c3After.map fun r => (r.1.frac.tokens 7).totalSupply) = some 6 ∧
    (c3After.map fun r => (r.1.frac.tokens 7).balances 9) = some 1 ∧
    (c3After.map fun r => r.1.frac.holderBalances c3Dom 9) = some 2 := by
  refine ⟨?_, ?_, ?_, ?_, ?_⟩ <;> rfl

/-- The domain `a` in the C4 scenarios. -/
def c4Dom : Str := [97]

/-- The state `enableFractionalization` is specified to produce (modelled
directly, since the implemented enable always reverts — claim C1): token at
address 7 holding the owner's locked `OWNER_SHARE`, nothing sold yet. -/
def c4Fresh : FracSys :=
  ⟨{ domainTokens := fun k => if k = c4Dom then 7 else 0
     fracInfo := fun k => if k = c4Dom then ⟨7, 2, 1000, true, 3⟩ else FracInfo.empty
     tokenHolders := fun _ => []
     holderBalances := fun k a => if k = c4Dom && a = 2 then OWNER_SHARE else 0
     gracePeriod := 10
     tokens := fun x =>
       if x = 7 then ⟨fun a => if a = 2 then OWNER_SHARE else 0, OWNER_SHARE, 2, OWNER_SHARE, 1000, false, c4Dom⟩
       else ⟨fun _ => 0, 0, 0, 0, 0, false, []⟩
     nextTokenAddr := 7, soldPublic := fun _ => 0 }, baseReg, 11⟩

/-- A state in which the full `PUBLIC_SHARE` has already been sold to the
public (ghost counter `soldPublic`), the owner's tokens are unlocked and the
owner has transferred all of them to holder 3: `totalSupply` is the full
`TOTAL_SUPPLY` and `publicSupply()` still reports `TOTAL_SUPPLY - 0`. -/
def c4Sold : FracSys :=
  ⟨{ domainTokens := fun k => if k = c4Dom then 7 else 0
     fracInfo := fun k => if k = c4Dom then ⟨7, 2, 1000, true, 3⟩ else FracInfo.empty
     tokenHolders := fun k => if k = c4Dom then [3] else []
     holderBalances := fun k a => if k = c4Dom && a = 3 then TOTAL_SUPPLY else 0
     gracePeriod := 10
     tokens := fun x =>
       if x = 7 then ⟨fun a => if a = 3 then TOTAL_SUPPLY else 0, TOTAL_SUPPLY, 2, 0, 1000, true, c4Dom⟩
       else ⟨fun _ => 0, 0, 0, 0, 0, false, []⟩
     nextTokenAddr := 7, soldPublic := fun k => if k = c4Dom then PUBLIC_SHARE else 0 }, baseReg, 11⟩

/-- Address 9 buys 1 more unit in the `c4Sold` state. -/
def c4SoldAfter : Option (FracSys × Nat × Nat) := purchasePublicTokens c4Sold 9 50 1 c4Dom 1 true

/-- Claim C4.  The claim states that a purchase with sufficient payment
succeeds exactly for `0 < numTokens ≤ remaining public supply` and that the
cumulative shares sold never exceed `PUBLIC_SHARE`.  Both parts are refuted,
because `DomainToken.publicSupply` subtracts the locked portion (or the
owner's balance) from the DYNAMIC `totalSupply()` instead of the fixed
`TOTAL_SUPPLY`: (1) in the freshly-enabled state nothing has been minted
beyond the locked `OWNER_SHARE`, so `publicSupply()` is 0 and even a 1-unit
purchase with ample payment reverts although the remaining public share is
the whole `PUBLIC_SHARE`; (2) once the owner's tokens are unlocked and
transferred away, `publicSupply()` grows with every mint, and a state with
`PUBLIC_SHARE` units already sold accepts a further purchase, pushing the
cumulative amount sold past `PUBLIC_SHARE` (and `totalSupply()` past
`TOTAL_SUPPLY`). -/
theorem claim_c4_public_supply_wrong :
    purchasePublicTokens c4Fresh 9 10 (10 ^ 30) c4Dom 1 true = none ∧
    (0 : Nat) < 1 ∧ (1 : Nat) ≤ PUBLIC_SHARE ∧
    c4Fresh.frac.soldPublic c4Dom = 0 ∧
    (c4SoldAfter.map fun r => r.1.frac.soldPublic c4Dom) = some (PUBLIC_SHARE + 1) ∧
    (c4SoldAfter.map fun r => (r.1.frac.tokens 7).totalSupply) = some (TOTAL_SUPPLY + 1) ∧
    PUBLIC_SHARE < PUBLIC_SHARE + 1 := by
  refine ⟨?_, ?_, ?_, ?_, ?_, ?_, ?_⟩ <;> first | rfl | decide

/-- Claim C5.  `burnAndTransfer` (the default-transfer trigger) never succeeds
before `expiration + gracePeriod`, and never while the recorded owner holds
strictly more than half of the share token's total supply: a success implies
`now ≥ expiration + gracePeriod` and `2 * ownerBalance ≤ totalSupply`. -/
theorem claim_c5_majority_transfer_safety (s : FracSys) (now : Nat) (domain : Str)
    (s2 : FracSys) (h : burnAndTransfer s now domain = some s2) :
    now ≥ (s.reg.domainInfo domain).expirationTimestamp + s.frac.gracePeriod ∧
    2 * (s.frac.tokens (s.frac.fracInfo domain).tokenContract).balances
          (s.frac.fracInfo domain).domainOwner
      ≤ (s.frac.tokens (s.frac.fracInfo domain).tokenContract).totalSupply := by
  unfold burnAndTransfer at h
  by_cases hen : (s.frac.fracInfo domain).isEnabled
  case neg => simp [hen] at h
  by_cases hexp1 : now < (s.reg.domainInfo domain).expirationTimestamp
  case pos => simp [hen, hexp1] at h
  by_cases hexp2 : now < (s.reg.domainInfo domain).expirationTimestamp + s.frac.gracePeriod
  case pos => simp [hen, hexp1, hexp2] at h
  by_cases hm0 : getMajorityOwner s domain = 0
  case pos => simp [hen, hexp1, hexp2, hm0] at h
  by_cases hmo : getMajorityOwner s domain = (s.frac.fracInfo domain).domainOwner
  case pos => simp [hen, hexp1, hexp2, hm0, hmo] at h
  refine ⟨by omega, ?_⟩
  by_contra hgt
  push_neg at hgt
  apply hmo
  by_cases ht0 : (s.frac.tokens (s.frac.fracInfo domain).tokenContract).totalSupply = 0
  · exact absurd (by unfold getMajorityOwner; simp [hen, ht0]) hm0
  · have hthr : (s.frac.tokens (s.frac.fracInfo domain).tokenContract).totalSupply / 2 + 1 ≤
        (s.frac.tokens (s.frac.fracInfo domain).tokenContract).balances
          (s.frac.fracInfo domain).domainOwner := by
      have h2 : (s.frac.tokens (s.frac.fracInfo domain).tokenContract).totalSupply / 2 <
          (s.frac.tokens (s.frac.fracInfo domain).tokenContract).balances
            (s.frac.fracInfo domain).domainOwner :=
        (Nat.div_lt_iff_lt_mul (by omega)).mpr (by omega)
      omega
    unfold getMajorityOwner
    simp [hen, ht0, if_pos hthr]

/-- The domain `a` in the C5 witness scenario. -/
def c5Dom : Str := [97]

/-- The registry side of the C5 witness: `a` registered to address 2, expired
at time 100, and the fractionalization contract registered at address 11. -/
def c5Reg : RegistryState :=
  { baseReg with
    fractionalization := 11
    domainInfo := fun k => if k = c5Dom then ⟨2, 0, 100, 1, [105, 111]⟩ else DomainRec.empty }

/-- A state where `burnAndTransfer` succeeds: `a` registered to address 2,
expired at time 100 with grace period 10 (now = 200), the recorded owner holds
0 of the 10 share units, holder 5 holds all 10, and the registry's
fractionalization address matches the calling contract (address 11). -/
def c5Sys : FracSys :=
  ⟨{ domainTokens := fun k => if k = c5Dom then 7 else 0
     fracInfo := fun k => if k = c5Dom then ⟨7, 2, 100, true, 3⟩ else FracInfo.empty
     tokenHolders := fun k => if k = c5Dom then [5] else []
     holderBalances := fun k a => if k = c5Dom && a = 5 then 10 else 0
     gracePeriod := 10
     tokens := fun x =>
       if x = 7 then ⟨fun a => if a = 5 then 10 else 0, 10, 2, 0, 100, false, c5Dom⟩
       else ⟨fun _ => 0, 0, 0, 0, 0, false, []⟩
     nextTokenAddr := 7, soldPublic := fun _ => 0 },
   c5Reg, 11⟩

/-- Witness for C5: `burnAndTransfer` does succeed in a concrete state, and
the safety conclusions hold there (instantiating the theorem). -/
theorem claim_c5_witness :
    (burnAndTransfer c5Sys 200 c5Dom).isSome = true ∧
    200 ≥ (c5Sys.reg.domainInfo c5Dom).expirationTimestamp + c5Sys.frac.gracePeriod ∧
    2 * (c5Sys.frac.tokens (c5Sys.frac.fracInfo c5Dom).tokenContract).balances
          (c5Sys.frac.fracInfo c5Dom).domainOwner
      ≤ (c5Sys.frac.tokens (c5Sys.frac.fracInfo c5Dom).tokenContract).totalSupply := by
  have hsome : (burnAndTransfer c5Sys 200 c5Dom).isSome = true := by rfl
  obtain ⟨s2, hs2⟩ := Option.isSome_iff_exists.mp hsome
  have hmain := claim_c5_majority_transfer_safety c5Sys 200 c5Dom s2 hs2
  exact ⟨hsome, hmain.1, hmain.2⟩

/-- The four renewal entry points of the registry, with their arguments. -/
inductive RenewalCall where
  | eth (sender msgValue : Nat) (domain tld : Str) (numYears : Nat) (refundOk : Bool)
  | usdc (sender : Nat) (domain tld : Str) (numYears usdcAmount : Nat)
      (feeTransferOk netTransferOk : Bool)
  | fromTreasury (msgValue : Nat) (callerIsTreasury : Bool) (domain tld : Str) (numYears : Nat)
  | batch (sender msgValue : Nat) (domains tlds : List Str) (numYearsArray : List Nat)
      (refundOk : Bool)

/-- Dispatch a renewal call to the corresponding modelled registry function. -/
def runRenewal (s : Sys) (now : Nat) : RenewalCall → Option Sys
  | .eth sender msgValue domain tld numYears refundOk =>
    renewDomain s sender now msgValue domain tld numYears refundOk
  | .usdc sender domain tld numYears usdcAmount fOk nOk =>
    renewDomainWithUSDC s sender now domain tld numYears usdcAmount fOk nOk
  | .fromTreasury v c domain tld numYears =>
    (renewDomainFromTreasury s.reg c v now domain tld numYears).map (fun r => ⟨r, s.trs⟩)
  | .batch sender msgValue ds ts ys refundOk =>
    batchRenewDomains s sender now msgValue ds ts ys refundOk

/-- The (domain, tld, years) items a renewal call attempts to renew. -/
def callItems : RenewalCall → List BatchItem
  | .eth _ _ d t y _ => [(d, t, y)]
  | .usdc _ d t y _ _ _ => [(d, t, y)]
  | .fromTreasury _ _ d t y => [(d, t, y)]
  | .batch _ _ ds ts ys _ => ds.zip (ts.zip ys)

/-- Extending an unexpired expiration (with no `uint64` truncation) adds
exactly `years * 365 days` to the stored expiration. -/
theorem extendExp_not_expired (e now y : Nat) (h1 : now < e) (h2 : e + y * YEAR < U64) :
    extendExp e now y = e + y * YEAR := by
  unfold extendExp
  rw [if_neg (by omega)]
  exact Nat.mod_eq_of_lt h2

/-- A successful `renewDomain` sets the renewed key's expiration to exactly
the old expiration plus `years * 365 days` (given no `uint64` truncation). -/
theorem renewDomain_exp (s : Sys) (sender now msgValue : Nat) (d t : Str) (y : Nat)
    (r : Bool) (s2 : Sys) (k : Str)
    (h : renewDomain s sender now msgValue d t y r = some s2)
    (hkey : itemKey (d, t, y) = some k)
    (hov : (s.reg.domainInfo k).expirationTimestamp + y * YEAR < U64) :
    (s2.reg.domainInfo k).expirationTimestamp
      = (s.reg.domainInfo k).expirationTimestamp + y * YEAR := by
  unfold itemKey at hkey
  cases hnd : normalizeDomain d with
  | none => rw [hnd] at hkey; exact Option.noConfusion hkey
  | some nd =>
  cases hnt : normalizeDomain t with
  | none => rw [hnd, hnt] at hkey; exact Option.noConfusion hkey
  | some nt =>
  rw [hnd, hnt] at hkey
  rw [Option.some_inj] at hkey
  subst hkey
  simp only [renewDomain, hnd, hnt] at h
  by_cases hy : (decide (y = 0) || decide (y > 10)) = true
  · rw [if_pos hy] at h; exact Option.noConfusion h
  rw [if_neg hy] at h
  by_cases how : (s.reg.domainInfo (nd ++ [46] ++ nt)).owner ≠ sender
  · rw [if_pos how] at h; exact Option.noConfusion h
  rw [if_neg how] at h
  by_cases hex : now ≥ (s.reg.domainInfo (nd ++ [46] ++ nt)).expirationTimestamp
  · rw [if_pos hex] at h; exact Option.noConfusion h
  rw [if_neg hex] at h
  cases hgp : getDomainPrice s.reg nt y with
  | none => simp only [hgp] at h; exact Option.noConfusion h
  | some totalPrice =>
  simp only [hgp] at h
  by_cases hval : msgValue < totalPrice
  · rw [if_pos hval] at h; exact Option.noConfusion h
  rw [if_neg hval] at h
  cases hfee : feeStepOf s (nd ++ [46] ++ nt) msgValue with
  | none => simp only [hfee] at h; exact Option.noConfusion h
  | some pr =>
  obtain ⟨t1, netPayment⟩ := pr
  simp only [hfee] at h
  by_cases hnet : netPayment < totalPrice
  · rw [if_pos hnet] at h; exact Option.noConfusion h
  rw [if_neg hnet] at h
  by_cases href : (decide (netPayment - totalPrice > 0) && !r) = true
  · rw [if_pos href] at h; exact Option.noConfusion h
  rw [if_neg href] at h
  by_cases hyy : (s.reg.domainInfo (nd ++ [46] ++ nt)).yearsPurchased + y > 100
  · rw [if_pos hyy] at h; exact Option.noConfusion h
  rw [if_neg hyy] at h
  rw [Option.some_inj] at h
  subst h
  simp only [upd_self]
  exact extendExp_not_expired _ _ _ (by omega) hov

/-- A successful `renewDomainWithUSDC` sets the renewed key's expiration to
exactly the old expiration plus `years * 365 days`. -/
theorem renewDomainWithUSDC_exp (s : Sys) (sender now : Nat) (d t : Str)
    (y ua : Nat) (fOk nOk : Bool) (s2 : Sys) (k : Str)
    (h : renewDomainWithUSDC s sender now d t y ua fOk nOk = some s2)
    (hkey : itemKey (d, t, y) = some k)
    (hov : (s.reg.domainInfo k).expirationTimestamp + y * YEAR < U64) :
    (s2.reg.domainInfo k).expirationTimestamp
      = (s.reg.domainInfo k).expirationTimestamp + y * YEAR := by
  unfold itemKey at hkey
  cases hnd : normalizeDomain d with
  | none => rw [hnd] at hkey; exact Option.noConfusion hkey
  | some nd =>
  cases hnt : normalizeDomain t with
  | none => rw [hnd, hnt] at hkey; exact Option.noConfusion hkey
  | some nt =>
  rw [hnd, hnt] at hkey
  rw [Option.some_inj] at hkey
  subst hkey
  simp only [renewDomainWithUSDC, hnd, hnt] at h
  by_cases hu : s.reg.usdcToken = 0
  · rw [if_pos hu] at h; exact Option.noConfusion h
  rw [if_neg hu] at h
  by_cases hy : (decide (y = 0) || decide (y > 10)) = true
  · rw [if_pos hy] at h; exact Option.noConfusion h
  rw [if_neg hy] at h
  by_cases how : (s.reg.domainInfo (nd ++ [46] ++ nt)).owner ≠ sender
  · rw [if_pos how] at h; exact Option.noConfusion h
  rw [if_neg how] at h
  by_cases hex : now ≥ (s.reg.domainInfo (nd ++ [46] ++ nt)).expirationTimestamp
  · rw [if_pos hex] at h; exact Option.noConfusion h
  rw [if_neg hex] at h
  cases hgp : getDomainPrice s.reg nt y with
  | none => simp only [hgp] at h; exact Option.noConfusion h
  | some totalPrice =>
  simp only [hgp] at h
  cases hcv : convertETHToUSDC s.reg now totalPrice with
  | none => simp only [hcv] at h; exact Option.noConfusion h
  | some usdcPrice =>
  simp only [hcv] at h
  cases hfee : usdcFeeOf s (nd ++ [46] ++ nt) usdcPrice with
  | none => simp only [hfee] at h; exact Option.noConfusion h
  | some fee =>
  simp only [hfee] at h
  by_cases hval : ua < usdcPrice
  · rw [if_pos hval] at h; exact Option.noConfusion h
  rw [if_neg hval] at h
  cases hdep : usdcDepositStep s (nd ++ [46] ++ nt) fee fOk with
  | none => simp only [hdep] at h; exact Option.noConfusion h
  | some t1 =>
  simp only [hdep] at h
  by_cases hnok : (!nOk) = true
  · rw [if_pos hnok] at h; exact Option.noConfusion h
  rw [if_neg hnok] at h
  by_cases hyy : (s.reg.domainInfo (nd ++ [46] ++ nt)).yearsPurchased + y > 100
  · rw [if_pos hyy] at h; exact Option.noConfusion h
  rw [if_neg hyy] at h
  rw [Option.some_inj] at h
  subst h
  simp only [upd_self]
  exact extendExp_not_expired _ _ _ (by omega) hov

/-- A successful `renewDomainFromTreasury` on an unexpired domain sets the
key's expiration to exactly the old expiration plus `years * 365 days`. -/
theorem renewDomainFromTreasury_exp (r : RegistryState) (c : Bool) (v now : Nat)
    (d t : Str) (y : Nat) (r2 : RegistryState) (k : Str)
    (h : renewDomainFromTreasury r c v now d t y = some r2)
    (hkey : itemKey (d, t, y) = some k)
    (hexp : now < (r.domainInfo k).expirationTimestamp)
    (hov : (r.domainInfo k).expirationTimestamp + y * YEAR < U64) :
    (r2.domainInfo k).expirationTimestamp
      = (r.domainInfo k).expirationTimestamp + y * YEAR := by
  unfold itemKey at hkey
  cases hnd : normalizeDomain d with
  | none => rw [hnd] at hkey; exact Option.noConfusion hkey
  | some nd =>
  cases hnt : normalizeDomain t with
  | none => rw [hnd, hnt] at hkey; exact Option.noConfusion hkey
  | some nt =>
  rw [hnd, hnt] at hkey
  rw [Option.some_inj] at hkey
  subst hkey
  simp only [renewDomainFromTreasury, hnd, hnt] at h
  by_cases hv : v ≠ 0
  · rw [if_pos hv] at h; exact Option.noConfusion h
  rw [if_neg hv] at h
  by_cases ht : r.treasury = 0
  · rw [if_pos ht] at h; exact Option.noConfusion h
  rw [if_neg ht] at h
  by_cases hc : (!c) = true
  · rw [if_pos hc] at h; exact Option.noConfusion h
  rw [if_neg hc] at h
  by_cases ho : (r.domainInfo (nd ++ [46] ++ nt)).owner = 0
  · rw [if_pos ho] at h; exact Option.noConfusion h
  rw [if_neg ho] at h
  by_cases hyy : (r.domainInfo (nd ++ [46] ++ nt)).yearsPurchased + y > 100
  · rw [if_pos hyy] at h; exact Option.noConfusion h
  rw [if_neg hyy] at h
  rw [Option.some_inj] at h
  subst h
  simp only [upd_self]
  exact extendExp_not_expired _ _ _ hexp hov

/-- A successful `renApply1` on its own (unexpired) key extends the key's
expiration by exactly `years * 365 days`. -/
theorem renApply1_exp (s : Sys) (now : Nat) (it : BatchItem) (s2 : Sys) (k : Str)
    (h : renApply1 s now it = some s2)
    (hkey : itemKey it = some k)
    (hexp : now < (s.reg.domainInfo k).expirationTimestamp)
    (hov : (s.reg.domainInfo k).expirationTimestamp + it.2.2 * YEAR < U64) :
    (s2.reg.domainInfo k).expirationTimestamp
      = (s.reg.domainInfo k).expirationTimestamp + it.2.2 * YEAR := by
  unfold itemKey at hkey
  cases hnd : normalizeDomain it.1 with
  | none => rw [hnd] at hkey; exact Option.noConfusion hkey
  | some nd =>
  cases hnt : normalizeDomain it.2.1 with
  | none => rw [hnd, hnt] at hkey; exact Option.noConfusion hkey
  | some nt =>
  rw [hnd, hnt] at hkey
  rw [Option.some_inj] at hkey
  subst hkey
  simp only [renApply1, hnd, hnt] at h
  cases hgp : getDomainPrice s.reg nt it.2.2 with
  | none => simp only [hgp] at h; exact Option.noConfusion h
  | some price =>
  simp only [hgp] at h
  cases hdf : batchDepositFee s (nd ++ [46] ++ nt) price with
  | none => simp only [hdf] at h; exact Option.noConfusion h
  | some t1 =>
  simp only [hdf] at h
  by_cases hyy : (s.reg.domainInfo (nd ++ [46] ++ nt)).yearsPurchased + it.2.2 > 100
  · rw [if_pos hyy] at h; exact Option.noConfusion h
  rw [if_neg hyy] at h
  rw [Option.some_inj] at h
  subst h
  simp only [upd_self]
  exact extendExp_not_expired _ _ _ hexp hov

/-- A successful `renApply1` leaves every other key's record unchanged. -/
theorem renApply1_frame (s : Sys) (now : Nat) (it : BatchItem) (s2 : Sys) (k : Str)
    (h : renApply1 s now it = some s2)
    (hne : itemKey it ≠ some k) :
    s2.reg.domainInfo k = s.reg.domainInfo k := by
  unfold itemKey at hne
  cases hnd : normalizeDomain it.1 with
  | none => simp only [renApply1, hnd] at h; exact Option.noConfusion h
  | some nd =>
  cases hnt : normalizeDomain it.2.1 with
  | none => simp only [renApply1, hnd, hnt] at h; exact Option.noConfusion h
  | some nt =>
  rw [hnd, hnt] at hne
  have hkne : nd ++ [46] ++ nt ≠ k := fun he => hne (by simp [he])
  simp only [renApply1, hnd, hnt] at h
  cases hgp : getDomainPrice s.reg nt it.2.2 with
  | none => simp only [hgp] at h; exact Option.noConfusion h
  | some price =>
  simp only [hgp] at h
  cases hdf : batchDepositFee s (nd ++ [46] ++ nt) price with
  | none => simp only [hdf] at h; exact Option.noConfusion h
  | some t1 =>
  simp only [hdf] at h
  by_cases hyy : (s.reg.domainInfo (nd ++ [46] ++ nt)).yearsPurchased + it.2.2 > 100
  · rw [if_pos hyy] at h; exact Option.noConfusion h
  rw [if_neg hyy] at h
  rw [Option.some_inj] at h
  subst h
  exact upd_other _ _ _ _ (Ne.symm hkne)

/-- The batch-renew loop distributes over list append. -/
theorem renApplyAll_append (s : Sys) (now : Nat) (l1 l2 : List BatchItem) :
    renApplyAll s now (l1 ++ l2)
      = (renApplyAll s now l1).bind (fun s1 => renApplyAll s1 now l2) := by
  induction l1 generalizing s with
  | nil => simp [renApplyAll]
  | cons it rest ih =>
    simp only [List.cons_append, renApplyAll]
    cases renApply1 s now it with
    | none => simp
    | some s1 => simp [ih]

/-- The batch-renew loop leaves keys outside the batch unchanged. -/
theorem renApplyAll_frame (now : Nat) (l : List BatchItem) (s s2 : Sys) (k : Str)
    (h : renApplyAll s now l = some s2)
    (hall : ∀ it ∈ l, itemKey it ≠ some k) :
    s2.reg.domainInfo k = s.reg.domainInfo k := by
  induction l generalizing s with
  | nil => simp only [renApplyAll, Option.some_inj] at h; subst h; rfl
  | cons it rest ih =>
    simp only [renApplyAll] at h
    cases h1 : renApply1 s now it with
    | none => rw [h1] at h; exact Option.noConfusion h
    | some s1 =>
      rw [h1] at h
      have e1 := renApply1_frame s now it s1 k h1 (hall it (by simp))
      have e2 := ih s1 h (fun it2 hm => hall it2 (by simp [hm]))
      rw [e2, e1]

/-- A successful `batchRenewDomains` reaches and completes its renewal loop. -/
theorem batchRenew_applyAll (s : Sys) (sender now msgValue : Nat)
    (ds ts : List Str) (ys : List Nat) (r : Bool) (s2 : Sys)
    (h : batchRenewDomains s sender now msgValue ds ts ys r = some s2) :
    renApplyAll s now (ds.zip (ts.zip ys)) = some s2 := by
  simp only [batchRenewDomains] at h
  by_cases h1 : (decide (ds.length ≠ ts.length) || decide (ds.length ≠ ys.length)) = true
  · rw [if_pos h1] at h; exact Option.noConfusion h
  rw [if_neg h1] at h
  by_cases h2 : (decide (ds.length = 0) || decide (ds.length > 10)) = true
  · rw [if_pos h2] at h; exact Option.noConfusion h
  rw [if_neg h2] at h
  cases h3 : renTotalCost s sender now (ds.zip (ts.zip ys)) with
  | none => simp only [h3] at h; exact Option.noConfusion h
  | some tc =>
  simp only [h3] at h
  by_cases h4 : msgValue < tc + totalFeesOf s (ds.zip (ts.zip ys))
  · rw [if_pos h4] at h; exact Option.noConfusion h
  rw [if_neg h4] at h
  cases h5 : renApplyAll s now (ds.zip (ts.zip ys)) with
  | none => simp only [h5] at h; exact Option.noConfusion h
  | some s3 =>
  simp only [h5] at h
  by_cases h6 : (decide (msgValue > tc + totalFeesOf s (ds.zip (ts.zip ys))) && !r) = true
  · rw [if_pos h6] at h; exact Option.noConfusion h
  rw [if_neg h6] at h
  rw [Option.some_inj] at h
  rw [h]

/-- Splitting a singleton list. -/
theorem singleton_split {α : Type} (a it : α) (l1 l2 : List α)
    (h : [a] = l1 ++ it :: l2) : l1 = [] ∧ it = a ∧ l2 = [] := by
  cases l1 with
  | nil =>
    rw [List.nil_append] at h
    injection h with h1 h2
    exact ⟨rfl, h1.symm, h2.symm⟩
  | cons b l1t =>
    rw [List.cons_append] at h
    injection h with h1 h2
    simp at h2

/-- Claim C6.  A successful renewal through any of the four renewal entry
points (`renewDomain`, `renewDomainWithUSDC`, `batchRenewDomains`,
`renewDomainFromTreasury`), applied to a not-yet-expired domain whose
normalized key `k` is renewed by exactly one item of the call, sets `k`'s new
expiration to exactly `E + years * 365 * 86400` measured from the prior
expiration `E` (given the sum stays below `2^64`, the stored width). -/
theorem claim_c6_renewal_extends_from_expiration
    (s : Sys) (now : Nat) (c : RenewalCall) (s2 : Sys)
    (l1 l2 : List BatchItem) (it : BatchItem) (k : Str)
    (h : runRenewal s now c = some s2)
    (hsplit : callItems c = l1 ++ it :: l2)
    (hothers : ∀ it2, it2 ∈ l1 ∨ it2 ∈ l2 → itemKey it2 ≠ some k)
    (hkey : itemKey it = some k)
    (hexp : now < (s.reg.domainInfo k).expirationTimestamp)
    (hov : (s.reg.domainInfo k).expirationTimestamp + it.2.2 * YEAR < U64) :
    (s2.reg.domainInfo k).expirationTimestamp
      = (s.reg.domainInfo k).expirationTimestamp + it.2.2 * YEAR := by
  cases c with
  | eth sender msgValue d t y r =>
    obtain ⟨-, hit, -⟩ := singleton_split _ _ _ _ (by simpa only [callItems] using hsplit)
    subst hit
    exact renewDomain_exp s sender now msgValue d t y r s2 k h hkey hov
  | usdc sender d t y ua fOk nOk =>
    obtain ⟨-, hit, -⟩ := singleton_split _ _ _ _ (by simpa only [callItems] using hsplit)
    subst hit
    exact renewDomainWithUSDC_exp s sender now d t y ua fOk nOk s2 k h hkey hov
  | fromTreasury v cl d t y =>
    obtain ⟨-, hit, -⟩ := singleton_split _ _ _ _ (by simpa only [callItems] using hsplit)
    subst hit
    have h2 : (renewDomainFromTreasury s.reg cl v now d t y).map
        (fun rr => (⟨rr, s.trs⟩ : Sys)) = some s2 := h
    cases hr : renewDomainFromTreasury s.reg cl v now d t y with
    | none => rw [hr] at h2; exact Option.noConfusion h2
    | some r2 =>
      rw [hr] at h2
      simp only [Option.map_some'] at h2
      rw [Option.some_inj] at h2
      subst h2
      exact renewDomainFromTreasury_exp s.reg cl v now d t y r2 k hr hkey hexp hov
  | batch sender msgValue ds ts ys r =>
    have hall := batchRenew_applyAll s sender now msgValue ds ts ys r s2 h
    simp only [callItems] at hsplit
    rw [hsplit] at hall
    rw [renApplyAll_append] at hall
    cases hA : renApplyAll s now l1 with
    | none => rw [hA] at hall; exact Option.noConfusion hall
    | some sa =>
    rw [hA] at hall
    simp only [Option.some_bind] at hall
    simp only [renApplyAll] at hall
    cases hB : renApply1 sa now it with
    | none => rw [hB] at hall; exact Option.noConfusion hall
    | some sb =>
    rw [hB] at hall
    have hFa : sa.reg.domainInfo k = s.reg.domainInfo k :=
      renApplyAll_frame now l1 s sa k hA (fun it2 hm => hothers it2 (Or.inl hm))
    have hFb : s2.reg.domainInfo k = sb.reg.domainInfo k :=
      renApplyAll_frame now l2 sb s2 k hall (fun it2 hm => hothers it2 (Or.inr hm))
    have hmid := renApply1_exp sa now it sb k hB hkey
      (by rw [hFa]; exact hexp) (by rw [hFa]; exact hov)
    rw [hFb, hmid, hFa]

/-- The registry for the C6 witness: `a.io` owned by 2, expiring at 1000. -/
def c6Sys : Sys :=
  ⟨{ baseReg with
     domainInfo := fun k => if k = [97, 46, 105, 111] then ⟨2, 0, 1000, 1, [105, 111]⟩ else DomainRec.empty },
   { treasuryBalances := fun _ => 0, domainFeePercentages := fun _ => 0, defaultFeePercentage := 100 }⟩

/-- Witness for C6: the owner renews `a.io` for 1 year at time 10 and the new
expiration is exactly `1000 + 365*86400` (instantiating the theorem). -/
theorem claim_c6_witness :
    ((runRenewal c6Sys 10 (.eth 2 5 [97] [105, 111] 1 true)).map
      (fun s2 => (s2.reg.domainInfo [97, 46, 105, 111]).expirationTimestamp)) = some 31537000 := by
  have hsome : (runRenewal c6Sys 10 (.eth 2 5 [97] [105, 111] 1 true)).isSome = true := by rfl
  obtain ⟨s2, hs2⟩ := Option.isSome_iff_exists.mp hsome
  have hmain := claim_c6_renewal_extends_from_expiration c6Sys 10
    (.eth 2 5 [97] [105, 111] 1 true) s2 [] [] ([97], [105, 111], 1) [97, 46, 105, 111]
    hs2 rfl (by intro it2 hm; rcases hm with hm | hm <;> simp at hm) (by rfl)
    (by decide) (by decide)
  rw [hs2]
  simp only [Option.map_some']
  rw [hmain]
  rfl

/-- A successful `batchRegisterDomains` implies matching array lengths and a
batch size of 1..10 (the source requires `length > 0 && length <= 10`). -/
theorem batchRegister_sizes (s : Sys) (sender now msgValue : Nat)
    (ds ts : List Str) (ys : List Nat) (r : Bool) (s2 : Sys)
    (h : batchRegisterDomains s sender now msgValue ds ts ys r = some s2) :
    ds.length = ts.length ∧ ds.length = ys.length ∧ 1 ≤ ds.length ∧ ds.length ≤ 10 := by
  simp only [batchRegisterDomains] at h
  by_cases h1 : (decide (ds.length ≠ ts.length) || decide (ds.length ≠ ys.length)) = true
  · rw [if_pos h1] at h; exact Option.noConfusion h
  rw [if_neg h1] at h
  by_cases h2 : (decide (ds.length = 0) || decide (ds.length > 10)) = true
  · rw [if_pos h2] at h; exact Option.noConfusion h
  simp only [Bool.or_eq_true, decide_eq_true_eq, not_or] at h1 h2
  obtain ⟨h1a, h1b⟩ := h1
  obtain ⟨h2a, h2b⟩ := h2
  exact ⟨by omega, by omega, by omega, by omega⟩

/-- A successful `batchRenewDomains` implies matching array lengths and a
batch size of 1..10. -/
theorem batchRenew_sizes (s : Sys) (sender now msgValue : Nat)
    (ds ts : List Str) (ys : List Nat) (r : Bool) (s2 : Sys)
    (h : batchRenewDomains s sender now msgValue ds ts ys r = some s2) :
    ds.length = ts.length ∧ ds.length = ys.length ∧ 1 ≤ ds.length ∧ ds.length ≤ 10 := by
  simp only [batchRenewDomains] at h
  by_cases h1 : (decide (ds.length ≠ ts.length) || decide (ds.length ≠ ys.length)) = true
  · rw [if_pos h1] at h; exact Option.noConfusion h
  rw [if_neg h1] at h
  by_cases h2 : (decide (ds.length = 0) || decide (ds.length > 10)) = true
  · rw [if_pos h2] at h; exact Option.noConfusion h
  simp only [Bool.or_eq_true, decide_eq_true_eq, not_or] at h1 h2
  obtain ⟨h1a, h1b⟩ := h1
  obtain ⟨h2a, h2b⟩ := h2
  exact ⟨by omega, by omega, by omega, by omega⟩

/-- One invalid item makes the whole register-validation loop fail. -/
theorem regTotalCost_none (s : Sys) (now : Nat) (items : List BatchItem)
    (it : BatchItem) (hm : it ∈ items) (hbad : regItemPrice s now it = none) :
    regTotalCost s now items = none := by
  induction items with
  | nil => simp at hm
  | cons a rest ih =>
    rcases List.mem_cons.mp hm with he | hm2
    · subst he; simp only [regTotalCost, hbad]
    · simp only [regTotalCost]
      cases regItemPrice s now a with
      | none => rfl
      | some p => simp [ih hm2]

/-- One invalid item makes the whole renew-validation loop fail. -/
theorem renTotalCost_none (s : Sys) (sender now : Nat) (items : List BatchItem)
    (it : BatchItem) (hm : it ∈ items) (hbad : renItemPrice s sender now it = none) :
    renTotalCost s sender now items = none := by
  induction items with
  | nil => simp at hm
  | cons a rest ih =>
    rcases List.mem_cons.mp hm with he | hm2
    · subst he; simp only [renTotalCost, hbad]
    · simp only [renTotalCost]
      cases renItemPrice s sender now a with
      | none => rfl
      | some p => simp [ih hm2]

/-- One invalid item (bad format, unavailable, bad years or unset price) makes
`batchRegisterDomains` fail as a whole. -/
theorem batchRegister_none_of_invalid (s : Sys) (sender now msgValue : Nat)
    (ds ts : List Str) (ys : List Nat) (r : Bool) (it : BatchItem)
    (hm : it ∈ ds.zip (ts.zip ys)) (hbad : regItemPrice s now it = none) :
    batchRegisterDomains s sender now msgValue ds ts ys r = none := by
  simp only [batchRegisterDomains]
  by_cases h1 : (decide (ds.length ≠ ts.length) || decide (ds.length ≠ ys.length)) = true
  · rw [if_pos h1]
  rw [if_neg h1]
  by_cases h2 : (decide (ds.length = 0) || decide (ds.length > 10)) = true
  · rw [if_pos h2]
  rw [if_neg h2]
  rw [regTotalCost_none s now _ it hm hbad]

/-- One invalid item (not owner, expired, bad years or unset price) makes
`batchRenewDomains` fail as a whole. -/
theorem batchRenew_none_of_invalid (s : Sys) (sender now msgValue : Nat)
    (ds ts : List Str) (ys : List Nat) (r : Bool) (it : BatchItem)
    (hm : it ∈ ds.zip (ts.zip ys)) (hbad : renItemPrice s sender now it = none) :
    batchRenewDomains s sender now msgValue ds ts ys r = none := by
  simp only [batchRenewDomains]
  by_cases h1 : (decide (ds.length ≠ ts.length) || decide (ds.length ≠ ys.length)) = true
  · rw [if_pos h1]
  rw [if_neg h1]
  by_cases h2 : (decide (ds.length = 0) || decide (ds.length > 10)) = true
  · rw [if_pos h2]
  rw [if_neg h2]
  rw [renTotalCost_none s sender now _ it hm hbad]

/-- An item the batch-register validation rejects is also rejected by the
single-item `registerDomain`, whatever the payment. -/
theorem registerDomain_none_of_item_invalid (s : Sys) (sender now msgValue : Nat)
    (d t : Str) (y : Nat) (r : Bool)
    (hbad : regItemPrice s now (d, t, y) = none) :
    registerDomain s sender now msgValue d t y r = none := by
  unfold regItemPrice at hbad
  unfold registerDomain
  by_cases hy : (decide (y = 0) || decide (y > 10)) = true
  · rw [if_pos hy]
  rw [if_neg hy]
  cases hnd : normalizeDomain d with
  | none => simp only [hnd]
  | some nd =>
  cases hnt : normalizeDomain t with
  | none => simp only [hnd, hnt]
  | some nt =>
  simp only [hnd, hnt] at hbad ⊢
  by_cases hv1 : (!validateDomainName nd) = true
  · rw [if_pos hv1]
  rw [if_neg hv1] at hbad ⊢
  by_cases hv2 : (!validateDomainName nt) = true
  · rw [if_pos hv2]
  rw [if_neg hv2] at hbad ⊢
  cases hav : isDomainAvailable s.reg now (nd ++ [46] ++ nt) with
  | none => simp only [hav]
  | some avail =>
  simp only [hav] at hbad ⊢
  by_cases hava : (!avail) = true
  · rw [if_pos hava]
  rw [if_neg hava] at hbad ⊢
  simp only [hbad]

/-- An item the batch-renew validation rejects is also rejected by the
single-item `renewDomain`, whatever the payment. -/
theorem renewDomain_none_of_item_invalid (s : Sys) (sender now msgValue : Nat)
    (d t : Str) (y : Nat) (r : Bool)
    (hbad : renItemPrice s sender now (d, t, y) = none) :
    renewDomain s sender now msgValue d t y r = none := by
  unfold renItemPrice at hbad
  unfold renewDomain
  by_cases hy : (decide (y = 0) || decide (y > 10)) = true
  · rw [if_pos hy]
  rw [if_neg hy]
  cases hnd : normalizeDomain d with
  | none => simp only [hnd]
  | some nd =>
  cases hnt : normalizeDomain t with
  | none => simp only [hnd, hnt]
  | some nt =>
  simp only [hnd, hnt] at hbad ⊢
  by_cases how : (s.reg.domainInfo (nd ++ [46] ++ nt)).owner ≠ sender
  · rw [if_pos how]
  rw [if_neg how] at hbad ⊢
  by_cases hex : now ≥ (s.reg.domainInfo (nd ++ [46] ++ nt)).expirationTimestamp
  · rw [if_pos hex]
  rw [if_neg hex] at hbad ⊢
  simp only [hbad]

/-- An aggregate payment below total cost plus total fees makes
`batchRegisterDomains` fail as a whole. -/
theorem batchRegister_none_of_underpayment (s : Sys) (sender now msgValue : Nat)
    (ds ts : List Str) (ys : List Nat) (r : Bool) (tc : Nat)
    (h3 : regTotalCost s now (ds.zip (ts.zip ys)) = some tc)
    (hlt : msgValue < tc + totalFeesOf s (ds.zip (ts.zip ys))) :
    batchRegisterDomains s sender now msgValue ds ts ys r = none := by
  simp only [batchRegisterDomains]
  by_cases h1 : (decide (ds.length ≠ ts.length) || decide (ds.length ≠ ys.length)) = true
  · rw [if_pos h1]
  rw [if_neg h1]
  by_cases h2 : (decide (ds.length = 0) || decide (ds.length > 10)) = true
  · rw [if_pos h2]
  rw [if_neg h2]
  simp only [h3]
  rw [if_pos hlt]

/-- An aggregate payment below total cost plus total fees makes
`batchRenewDomains` fail as a whole. -/
theorem batchRenew_none_of_underpayment (s : Sys) (sender now msgValue : Nat)
    (ds ts : List Str) (ys : List Nat) (r : Bool) (tc : Nat)
    (h3 : renTotalCost s sender now (ds.zip (ts.zip ys)) = some tc)
    (hlt : msgValue < tc + totalFeesOf s (ds.zip (ts.zip ys))) :
    batchRenewDomains s sender now msgValue ds ts ys r = none := by
  simp only [batchRenewDomains]
  by_cases h1 : (decide (ds.length ≠ ts.length) || decide (ds.length ≠ ys.length)) = true
  · rw [if_pos h1]
  rw [if_neg h1]
  by_cases h2 : (decide (ds.length = 0) || decide (ds.length > 10)) = true
  · rw [if_pos h2]
  rw [if_neg h2]
  simp only [h3]
  rw [if_pos hlt]

/-- Counterexample to claim C7: its "2 to 10 items" bound is wrong.  Both
batch functions accept single-item batches: a 1-item `batchRegisterDomains`
and a 1-item `batchRenewDomains` succeed on concrete states. -/
theorem claim_c7_counterexample :
    (batchRegisterDomains c6Sys 2 10 100 [[98]] [[105, 111]] [1] true).isSome = true ∧
    (batchRenewDomains c6Sys 2 10 100 [[97]] [[105, 111]] [1] true).isSome = true ∧
    ([[98]] : List Str).length = 1 := by
  refine ⟨?_, ?_, ?_⟩ <;> rfl

/-- Claim C7 (amended: batch size 1 to 10, not 2 to 10).  The batch calls
accept only matching arrays of 1..10 items; an item failing the per-item
validation (which coincides with the single-item call's validation: an item
the batch rejects is rejected by the single call too) fails the whole batch,
as does an aggregate payment below total cost plus fees; and a failed batch
(`none`) registers or renews nothing and deposits no fee, by the atomic
(state-or-`none`) semantics of a reverted call. -/
theorem claim_c7_batch_semantics :
    (∀ (s : Sys) (sender now msgValue : Nat) (ds ts : List Str) (ys : List Nat) (r : Bool) (s2 : Sys),
      batchRegisterDomains s sender now msgValue ds ts ys r = some s2 →
        ds.length = ts.length ∧ ds.length = ys.length ∧ 1 ≤ ds.length ∧ ds.length ≤ 10) ∧
    (∀ (s : Sys) (sender now msgValue : Nat) (ds ts : List Str) (ys : List Nat) (r : Bool) (s2 : Sys),
      batchRenewDomains s sender now msgValue ds ts ys r = some s2 →
        ds.length = ts.length ∧ ds.length = ys.length ∧ 1 ≤ ds.length ∧ ds.length ≤ 10) ∧
    (∀ (s : Sys) (sender now msgValue : Nat) (ds ts : List Str) (ys : List Nat) (r : Bool) (it : BatchItem),
      it ∈ ds.zip (ts.zip ys) → regItemPrice s now it = none →
        batchRegisterDomains s sender now msgValue ds ts ys r = none) ∧
    (∀ (s : Sys) (sender now msgValue : Nat) (ds ts : List Str) (ys : List Nat) (r : Bool) (it : BatchItem),
      it ∈ ds.zip (ts.zip ys) → renItemPrice s sender now it = none →
        batchRenewDomains s sender now msgValue ds ts ys r = none) ∧
    (∀ (s : Sys) (sender now msgValue : Nat) (d t : Str) (y : Nat) (r : Bool),
      regItemPrice s now (d, t, y) = none →
        registerDomain s sender now msgValue d t y r = none) ∧
    (∀ (s : Sys) (sender now msgValue : Nat) (d t : Str) (y : Nat) (r : Bool),
      renItemPrice s sender now (d, t, y) = none →
        renewDomain s sender now msgValue d t y r = none) ∧
    (∀ (s : Sys) (sender now msgValue : Nat) (ds ts : List Str) (ys : List Nat) (r : Bool) (tc : Nat),
      regTotalCost s now (ds.zip (ts.zip ys)) = some tc →
      msgValue < tc + totalFeesOf s (ds.zip (ts.zip ys)) →
        batchRegisterDomains s sender now msgValue ds ts ys r = none) ∧
    (∀ (s : Sys) (sender now msgValue : Nat) (ds ts : List Str) (ys : List Nat) (r : Bool) (tc : Nat),
      renTotalCost s sender now (ds.zip (ts.zip ys)) = some tc →
      msgValue < tc + totalFeesOf s (ds.zip (ts.zip ys)) →
        batchRenewDomains s sender now msgValue ds ts ys r = none) := by
  refine ⟨batchRegister_sizes, batchRenew_sizes, ?_, ?_, ?_, ?_, ?_, ?_⟩
  · intro s sender now msgValue ds ts ys r it hm hbad
    exact batchRegister_none_of_invalid s sender now msgValue ds ts ys r it hm hbad
  · intro s sender now msgValue ds ts ys r it hm hbad
    exact batchRenew_none_of_invalid s sender now msgValue ds ts ys r it hm hbad
  · intro s sender now msgValue d t y r hbad
    exact registerDomain_none_of_item_invalid s sender now msgValue d t y r hbad
  · intro s sender now msgValue d t y r hbad
    exact renewDomain_none_of_item_invalid s sender now msgValue d t y r hbad
  · intro s sender now msgValue ds ts ys r tc h3 hlt
    exact batchRegister_none_of_underpayment s sender now msgValue ds ts ys r tc h3 hlt
  · intro s sender now msgValue ds ts ys r tc h3 hlt
    exact batchRenew_none_of_underpayment s sender now msgValue ds ts ys r tc h3 hlt

/-- Witness for C7: a concrete 2-item batch registration succeeds (and the
theorem yields its size bounds); a batch containing the malformed domain `-`
fails as a whole; a batch paid 3 wei against a 10 wei total cost fails as a
whole. -/
theorem claim_c7_witness :
    ((batchRegisterDomains c6Sys 2 10 20 [[98], [99]] [[105, 111], [105, 111]] [1, 1] true).isSome = true ∧
      (1 : Nat) ≤ 2 ∧ (2 : Nat) ≤ 10) ∧
    batchRegisterDomains c6Sys 2 10 100 [[45], [98]] [[105, 111], [105, 111]] [1, 1] true = none ∧
    batchRegisterDomains c6Sys 2 10 3 [[98], [99]] [[105, 111], [105, 111]] [1, 1] true = none := by
  have hsome : (batchRegisterDomains c6Sys 2 10 20 [[98], [99]] [[105, 111], [105, 111]] [1, 1] true).isSome = true := by rfl
  obtain ⟨s2, hs2⟩ := Option.isSome_iff_exists.mp hsome
  have hb := claim_c7_batch_semantics.1 c6Sys 2 10 20 [[98], [99]] [[105, 111], [105, 111]] [1, 1] true s2 hs2
  refine ⟨⟨hsome, hb.2.2.1, hb.2.2.2⟩, ?_, ?_⟩
  · exact claim_c7_batch_semantics.2.2.1 c6Sys 2 10 100 [[45], [98]] [[105, 111], [105, 111]] [1, 1] true
      ([45], [105, 111], 1) (by decide) (by rfl)
  · exact claim_c7_batch_semantics.2.2.2.2.2.2.1 c6Sys 2 10 3 [[98], [99]] [[105, 111], [105, 111]] [1, 1] true
      10 (by rfl) (by decide)

/-- `(x + b - 1) / b` rounds up: multiplied back it is at least `x`. -/
theorem ceil_le_mul (x b : Nat) (hb : 0 < b) : x ≤ ((x + b - 1) / b) * b := by
  rcases Nat.eq_zero_or_pos x with h0 | hx
  · simp [h0]
  · have h1 : x + b - 1 = (x - 1) + b := by omega
    rw [h1, Nat.add_div_right _ hb]
    have h2 : x - 1 < ((x - 1) / b + 1) * b :=
      (Nat.div_lt_iff_lt_mul hb).mp (Nat.lt_succ_self _)
    omega

/-- `(x + b - 1) / b` is the least such value: multiplied back it is below
`x + b`. -/
theorem mul_ceil_lt (x b : Nat) (hb : 0 < b) : ((x + b - 1) / b) * b < x + b := by
  have h1 : ((x + b - 1) / b) * b ≤ x + b - 1 := Nat.div_mul_le_self _ _
  omega

/-- Claim C8.  A successful `purchasePublicTokens` charges exactly
`(price * amount + 10^18 - 1) / 10^18` — the ceiling of the exact rational
price `price * amount / 10^18`, characterized by the two inequalities
`price * amount ≤ charged * 10^18 < price * amount + 10^18` (so rounding never
favors the buyer) — requires the payment to cover it, refunds exactly the
payment minus the charge, and reverts (rather than wrapping) when the
`uint256` product `price * amount` overflows. -/
theorem claim_c8_purchase_pricing (s : FracSys) (sender now msgValue : Nat)
    (domain : Str) (numTokens : Nat) (r : Bool) :
    (∀ (s2 : FracSys) (charged refund : Nat),
      purchasePublicTokens s sender now msgValue domain numTokens r = some (s2, charged, refund) →
        charged = ((s.frac.fracInfo domain).publicTokenPrice * numTokens + 10 ^ 18 - 1) / 10 ^ 18 ∧
        (s.frac.fracInfo domain).publicTokenPrice * numTokens ≤ charged * 10 ^ 18 ∧
        charged * 10 ^ 18 < (s.frac.fracInfo domain).publicTokenPrice * numTokens + 10 ^ 18 ∧
        charged ≤ msgValue ∧ refund = msgValue - charged) ∧
    (U256 ≤ (s.frac.fracInfo domain).publicTokenPrice * numTokens →
      purchasePublicTokens s sender now msgValue domain numTokens r = none) := by
  constructor
  · intro s2 charged refund h
    simp only [purchasePublicTokens] at h
    by_cases hen : (!(s.frac.fracInfo domain).isEnabled) = true
    · rw [if_pos hen] at h; exact Option.noConfusion h
    rw [if_neg hen] at h
    by_cases hn0 : numTokens = 0
    · rw [if_pos hn0] at h; exact Option.noConfusion h
    rw [if_neg hn0] at h
    cases hps : publicSupply (s.frac.tokens (s.frac.fracInfo domain).tokenContract) with
    | none => simp only [hps] at h; exact Option.noConfusion h
    | some availableSupply =>
    simp only [hps] at h
    by_cases hav : numTokens > availableSupply
    · rw [if_pos hav] at h; exact Option.noConfusion h
    rw [if_neg hav] at h
    by_cases hof1 : (s.frac.fracInfo domain).publicTokenPrice * numTokens ≥ U256
    · rw [if_pos hof1] at h; exact Option.noConfusion h
    rw [if_neg hof1] at h
    by_cases hof2 : (s.frac.fracInfo domain).publicTokenPrice * numTokens + 10 ^ 18 - 1 ≥ U256
    · rw [if_pos hof2] at h; exact Option.noConfusion h
    rw [if_neg hof2] at h
    by_cases hval : msgValue < ((s.frac.fracInfo domain).publicTokenPrice * numTokens + 10 ^ 18 - 1) / 10 ^ 18
    · rw [if_pos hval] at h; exact Option.noConfusion h
    rw [if_neg hval] at h
    cases htu : tokenUpdate s (s.frac.fracInfo domain).tokenContract 0 sender numTokens now with
    | none => simp only [htu] at h; exact Option.noConfusion h
    | some s1 =>
    simp only [htu] at h
    cases hht : purchaseHolderTrack s1.frac domain sender (s.frac.fracInfo domain).domainOwner with
    | none => simp only [hht] at h; exact Option.noConfusion h
    | some f2 =>
    simp only [hht] at h
    by_cases href : (decide (msgValue > ((s.frac.fracInfo domain).publicTokenPrice * numTokens + 10 ^ 18 - 1) / 10 ^ 18) && !r) = true
    · rw [if_pos href] at h; exact Option.noConfusion h
    rw [if_neg href] at h
    rw [Option.some_inj] at h
    obtain ⟨h1, h2⟩ := Prod.mk.inj h
    obtain ⟨h3, h4⟩ := Prod.mk.inj h2
    subst h3
    subst h4
    exact ⟨rfl, ceil_le_mul _ _ (by norm_num), mul_ceil_lt _ _ (by norm_num), by omega, rfl⟩
  · intro hov
    simp only [purchasePublicTokens]
    by_cases hen : (!(s.frac.fracInfo domain).isEnabled) = true
    · rw [if_pos hen]
    rw [if_neg hen]
    by_cases hn0 : numTokens = 0
    · rw [if_pos hn0]
    rw [if_neg hn0]
    cases hps : publicSupply (s.frac.tokens (s.frac.fracInfo domain).tokenContract) with
    | none => rfl
    | some availableSupply =>
    dsimp only
    by_cases hav : numTokens > availableSupply
    · rw [if_pos hav]
    rw [if_neg hav]
    rw [if_pos hov]

/-- The C8 witness state: enabled, unlocked, token supply 5 with the owner
(address 2) holding 4 and holder 3 holding 1, price-per-full-token 3 wei. -/
def c8Sys : FracSys :=
  ⟨{ domainTokens := fun k => if k = c3Dom then 7 else 0
     fracInfo := fun k => if k = c3Dom then ⟨7, 2, 0, true, 3⟩ else FracInfo.empty
     tokenHolders := fun k => if k = c3Dom then [3] else []
     holderBalances := fun k a => if k = c3Dom then (if a = 2 then 4 else if a = 3 then 1 else 0) else 0
     gracePeriod := 10
     tokens := fun x =>
       if x = 7 then ⟨fun a => if a = 2 then 4 else if a = 3 then 1 else 0, 5, 2, 0, 0, true, c3Dom⟩
       else ⟨fun _ => 0, 0, 0, 0, 0, false, []⟩
     nextTokenAddr := 7, soldPublic := fun _ => 0 }, baseReg, 11⟩

/-- The C8 overflow state: like `c8Sys` but with a per-token price of `2^256`
so that the price product overflows `uint256` even for one unit. -/
def c8Big : FracSys :=
  ⟨{ c8Sys.frac with fracInfo := fun k => if k = c3Dom then ⟨7, 2, 0, true, U256⟩ else FracInfo.empty },
   baseReg, 11⟩

/-- Witness for C8: buying one share unit at price 3 wei per full token
charges exactly `ceil(3 * 1 / 10^18) = 1` wei and refunds 9 of the 10 wei
sent (instantiating the theorem), and the same purchase at price `2^256`
reverts on the overflow check. -/
theorem claim_c8_witness :
    ((purchasePublicTokens c8Sys 9 50 10 c3Dom 1 true).map fun rr => (rr.2.1, rr.2.2))
        = some ((3 * 1 + 10 ^ 18 - 1) / 10 ^ 18, 10 - (3 * 1 + 10 ^ 18 - 1) / 10 ^ 18) ∧
    purchasePublicTokens c8Big 9 50 (10 ^ 30) c3Dom 1 true = none := by
  constructor
  · have hsome : (purchasePublicTokens c8Sys 9 50 10 c3Dom 1 true).isSome = true := by rfl
    obtain ⟨rr, hrr⟩ := Option.isSome_iff_exists.mp hsome
    have hmain := (claim_c8_purchase_pricing c8Sys 9 50 10 c3Dom 1 true).1 rr.1 rr.2.1 rr.2.2 (by rw [hrr])
    rw [hrr]
    simp only [Option.map_some']
    have hc : rr.2.1 = (3 * 1 + 10 ^ 18 - 1) / 10 ^ 18 := hmain.1
    have hr2 : rr.2.2 = 10 - (3 * 1 + 10 ^ 18 - 1) / 10 ^ 18 := by rw [hmain.2.2.2.2, hc]
    rw [hc, hr2]
  · exact (claim_c8_purchase_pricing c8Big 9 50 (10 ^ 30) c3Dom 1 true).2 (by decide)

/-- Byte-level case folding is idempotent. -/
theorem toLowerByte_idem (c : Nat) : toLowerByte (toLowerByte c) = toLowerByte c := by
  unfold toLowerByte
  by_cases h : (decide (65 ≤ c) && decide (c ≤ 90)) = true
  · rw [if_pos h]
    simp only [Bool.and_eq_true, decide_eq_true_eq] at h
    rw [if_neg (by simp only [Bool.and_eq_true, decide_eq_true_eq, not_and]; omega)]
  · rw [if_neg h, if_neg h]

/-- Two byte strings with the same case folding normalize identically. -/
theorem normalizeDomain_congr (x y : Str) (h : x.map toLowerByte = y.map toLowerByte) :
    normalizeDomain x = normalizeDomain y := by
  have hl : x.length = y.length := by
    have h2 := congrArg List.length h
    simpa using h2
  unfold normalizeDomain
  rw [hl, h]

/-- Claim C9.  Normalization is idempotent on every accepted input, two
inputs differing only in ASCII letter case normalize identically, and the
registry operations (`registerDomain`, `renewDomain`, `isDomainAvailable`,
`transferDomain`) treat such inputs identically — they key storage only by
the normalized lowercase full domain. -/
theorem claim_c9_normalization_idempotent (x x2 t t2 : Str)
    (hx : x.map toLowerByte = x2.map toLowerByte)
    (ht : t.map toLowerByte = t2.map toLowerByte) :
    (∀ y : Str, normalizeDomain x = some y → normalizeDomain y = some y) ∧
    normalizeDomain x = normalizeDomain x2 ∧
    (∀ (s : Sys) (sender now msgValue numYears : Nat) (rb : Bool),
      registerDomain s sender now msgValue x t numYears rb
        = registerDomain s sender now msgValue x2 t2 numYears rb) ∧
    (∀ (s : Sys) (sender now msgValue numYears : Nat) (rb : Bool),
      renewDomain s sender now msgValue x t numYears rb
        = renewDomain s sender now msgValue x2 t2 numYears rb) ∧
    (∀ (rg : RegistryState) (now : Nat),
      isDomainAvailable rg now x = isDomainAvailable rg now x2) ∧
    (∀ (rg : RegistryState) (sender now newOwner : Nat),
      transferDomain rg sender now x newOwner = transferDomain rg sender now x2 newOwner) := by
  have hnx : normalizeDomain x = normalizeDomain x2 := normalizeDomain_congr x x2 hx
  have hnt : normalizeDomain t = normalizeDomain t2 := normalizeDomain_congr t t2 ht
  refine ⟨?_, hnx, ?_, ?_, ?_, ?_⟩
  · intro y h
    unfold normalizeDomain at h ⊢
    by_cases h0 : x.length = 0
    · rw [if_pos h0] at h; exact Option.noConfusion h
    rw [if_neg h0] at h
    by_cases h1 : x.length > 253
    · rw [if_pos h1] at h; exact Option.noConfusion h
    rw [if_neg h1] at h
    rw [Option.some_inj] at h
    subst h
    rw [if_neg (by simpa using h0), if_neg (by simpa using h1)]
    rw [List.map_map]
    have hcomp : toLowerByte ∘ toLowerByte = toLowerByte := funext toLowerByte_idem
    rw [hcomp]
  · intro s sender now msgValue numYears rb
    simp only [registerDomain, hnx, hnt]
  · intro s sender now msgValue numYears rb
    simp only [renewDomain, hnx, hnt]
  · intro rg now
    simp only [isDomainAvailable, hnx]
  · intro rg sender now newOwner
    simp only [transferDomain, hnx]

/-- Witness for C9: `A` and `a`, `IO` and `io` case-fold identically, so the
theorem applies; in particular `A`'s normalization is idempotent, `A` and `a`
normalize identically, and availability lookups agree on them. -/
theorem claim_c9_witness :
    normalizeDomain [97] = some [97] ∧
    normalizeDomain [65] = normalizeDomain [97] ∧
    isDomainAvailable c2Reg 10 [65] = isDomainAvailable c2Reg 10 [97] := by
  have hmain := claim_c9_normalization_idempotent [65] [97] [73, 79] [105, 111]
    (by decide) (by decide)
  exact ⟨hmain.1 [97] (by decide), hmain.2.1, hmain.2.2.2.2.1 c2Reg 10⟩

/-- A list fixed by mapping `toLowerByte` has every element fixed. -/
theorem map_toLower_fix (l : Str) (h : l.map toLowerByte = l) :
    ∀ b ∈ l, toLowerByte b = b := by
  induction l with
  | nil => intro b hb; simp at hb
  | cons a rest ih =>
    simp only [List.map_cons, List.cons.injEq] at h
    intro b hb
    rcases List.mem_cons.mp hb with he | hb2
    · subst he; exact h.1
    · exact ih h.2 b hb2

/-- Claim C10.  The treasury keys `canAutoRenew` and `autoRenewDomain` by the
RAW concatenation `domain ++ "." ++ tld` while the registry's `depositFee`
calls credit only lowercase-normalized keys.  In any state where every key
with a nonzero treasury balance is normalized (as every state reachable
through registry-driven deposits is), an input whose concatenation contains
an uppercase ASCII letter consults a zero balance: `canAutoRenew` can never
answer `true` for it and `autoRenewDomain` fails (the latter in fact fails on
every input, claim C2). -/
theorem claim_c10_raw_key_mismatch (s : Sys) (domain tld : Str)
    (hdep : ∀ k2, s.trs.treasuryBalances k2 ≠ 0 → k2.map toLowerByte = k2)
    (hup : ∃ b ∈ domain ++ [46] ++ tld, 65 ≤ b ∧ b ≤ 90) :
    s.trs.treasuryBalances (domain ++ [46] ++ tld) = 0 ∧
    (∀ y, canAutoRenew s domain tld y ≠ some true) ∧
    (∀ sender now y, autoRenewDomain s sender now domain tld y = none) := by
  have hbal : s.trs.treasuryBalances (domain ++ [46] ++ tld) = 0 := by
    by_contra hne
    have hfix := hdep _ hne
    obtain ⟨b, hb, hb1, hb2⟩ := hup
    have hfb : toLowerByte b = b := map_toLower_fix _ hfix b hb
    unfold toLowerByte at hfb
    rw [if_pos (by simp only [Bool.and_eq_true, decide_eq_true_eq]; omega)] at hfb
    omega
  refine ⟨hbal, ?_, fun sender now y => autoRenewDomain_always_none s sender now domain tld y⟩
  intro y
  unfold canAutoRenew
  cases hgp : getDomainPrice s.reg tld y with
  | none => simp
  | some cost =>
  dsimp only
  have hcost : 1 ≤ cost := by
    simp only [getDomainPrice] at hgp
    by_cases hy : (decide (y = 0) || decide (y > 10)) = true
    · rw [if_pos hy] at hgp; exact Option.noConfusion hgp
    rw [if_neg hy] at hgp
    by_cases hp : s.reg.tldPrices tld = 0
    · rw [if_pos hp] at hgp; exact Option.noConfusion hgp
    rw [if_neg hp] at hgp
    rw [Option.some_inj] at hgp
    subst hgp
    simp only [Bool.or_eq_true, decide_eq_true_eq, not_or] at hy
    exact Nat.mul_pos (Nat.pos_of_ne_zero hp) (Nat.pos_of_ne_zero hy.1)
  rw [hbal]
  intro hcon
  rw [Option.some_inj] at hcon
  have h0 := of_decide_eq_true hcon
  omega

/-- Witness for C10: with fees accumulated only at the normalized `a.io`, the
uppercase query `A`/`io` sees a zero balance and `canAutoRenew` never answers
`true`, although the normalized key holds 100 wei (which covers the 5 wei
cost: the lowercase query answers `true`). -/
theorem claim_c10_witness :
    (⟨c2Reg, c2Trs⟩ : Sys).trs.treasuryBalances ([65] ++ [46] ++ [105, 111]) = 0 ∧
    (∀ y, canAutoRenew ⟨c2Reg, c2Trs⟩ [65] [105, 111] y ≠ some true) ∧
    c2Trs.treasuryBalances [97, 46, 105, 111] = 100 ∧
    canAutoRenew ⟨c2Reg, c2Trs⟩ [97] [105, 111] 1 = some true := by
  have hmain := claim_c10_raw_key_mismatch ⟨c2Reg, c2Trs⟩ [65] [105, 111]
    (by
      intro k2 hk2
      by_cases he : k2 = [97, 46, 105, 111]
      · subst he; decide
      · exact absurd (by simp [c2Trs, he]) hk2)
    (by decide)
  exact ⟨hmain.1, hmain.2.1, by decide, by decide⟩

end FIDNS
